import Mathlib

/-!
Verification of `static_container_registry.py`: a generator that scans a
directory tree of exported container images and emits nginx configuration
snippets serving that tree as a read-only Docker Registry HTTP API v2
surface.

The filesystem (directory listing, file-type tests, the result of
`json.load` on a manifest file, and the raw bytes read when digesting) is
modelled as an oracle structure `FS`; paths are lists of path segments, so
`os.path.join(root, name, tag)` is `root ++ [name, tag]`.  Python values
returned by `json.load` are modelled by `PyJson` (JSON integers as `Int`);
`json.JSONDecodeError` is the `none` case of the parse oracle.  The
generator functions (`find_images`, `compute_digest`, `create_config`) are
translated statement by statement from the source; a Python generator that
may raise is modelled as the pair of the list of values yielded before
termination and an optional error (`PyError`).  SHA-256 is implemented in
full over byte lists (`Nat` below 256), and the 4096-byte read loop of
`compute_digest` is modelled by explicit chunking.
-/

/-- Code-point comparison of characters, as Python compares strings. -/
def charLe (a b : Char) : Bool := a.toNat ≤ b.toNat

/-- Lexicographic order on character lists by code point: Python's
string comparison used by `sorted`. -/
def charListLe : List Char → List Char → Bool
  | [], _ => true
  | _ :: _, [] => false
  | a :: as, b :: bs =>
      if a.toNat < b.toNat then true
      else if a.toNat = b.toNat then charListLe as bs
      else false

/-- Python string `<=` (lexicographic by code point). -/
def strLe (a b : String) : Bool := charListLe a.data b.data

/-- Values produced by `json.load`.  Numbers are modelled as JSON
integers; `null`, booleans, strings, arrays and objects are as in JSON. -/
inductive PyJson where
  | null : PyJson
  | bool (b : Bool) : PyJson
  | num (n : Int) : PyJson
  | str (s : String) : PyJson
  | arr (xs : List PyJson) : PyJson
  | obj (kvs : List (String × PyJson)) : PyJson

/-- Python truthiness of a `json.load` result (`if not data: continue`):
`None`, `False`, `0`, `""`, `[]` and `{}` are falsy. -/
def pyTruthy : PyJson → Bool
  | .null => false
  | .bool b => b
  | .num n => n != 0
  | .str s => s != ""
  | .arr xs => !xs.isEmpty
  | .obj kvs => !kvs.isEmpty

/-- `dict.get` on the key/value list of a JSON object: first binding of
the key, `none` when absent (Python `None`). -/
def objLookup : List (String × PyJson) → String → Option PyJson
  | [], _ => none
  | (k1, v) :: rest, k => if k1 = k then some v else objLookup rest k

/-- The exceptions the generator can raise: `AttributeError` from calling
`.get` on a truthy non-dict `json.load` result, and an I/O error from
`open` when the manifest file vanished before digesting. -/
inductive PyError where
  | attributeError : PyError
  | ioError : PyError
deriving DecidableEq

/-- The filesystem oracle.  Paths are segment lists rooted anywhere;
`parse` is the outcome of `json.load` on the file at a path (`none`
models `json.JSONDecodeError`), and `fileBytes` the raw byte content
available when the file is opened for digesting (`none` models the file
having vanished, i.e. an `IOError` on `open`). -/
structure FS where
  listdir : List String → List String
  isDir : List String → Bool
  isFile : List String → Bool
  parse : List String → Option PyJson
  fileBytes : List String → Option (List Nat)

/-- The literal file name the scanner looks for (`MANIFEST_JSON`). -/
def MANIFEST_JSON : String := "manifest.json"

/-- The media-type allow-list of `find_images`. -/
def mediaTypes : List String :=
  ["application/vnd.docker.distribution.manifest.v2+json",
   "application/vnd.oci.image.manifest.v1+json"]

/-- Outcome of examining one `(name, tag)` candidate directory in
`find_images`: skip it, crash (Python `AttributeError` on `.get` of a
truthy non-dict), or yield its media type. -/
inductive ScanStep where
  | skip : ScanStep
  | crash : ScanStep
  | found (mt : String) : ScanStep
deriving DecidableEq

/-- The validation of a successfully parsed `json.load` result: the
truthiness test (`if not data: continue`), then `data.get` of
`schemaVersion` and `mediaType` — which raises `AttributeError` when
`data` is a truthy non-dict. -/
def scanData (data : PyJson) : ScanStep :=
  if !(pyTruthy data) then .skip
  else
    match data with
    | .obj kvs =>
      if !(match objLookup kvs "schemaVersion" with
           | some (.num n) => n == 2
           | _ => false) then .skip
      else
        match objLookup kvs "mediaType" with
        | some (.str mt) => if mt ∈ mediaTypes then .found mt else .skip
        | _ => .skip
    | _ => .crash

/-- The body of the inner loop of `find_images` for one `(name, tag)`
pair: directory test, `manifest.json` existence test, `json.load` with
`JSONDecodeError` handled, then the validation of the parsed data. -/
def scanTag (fs : FS) (root : List String) (name tag : String) : ScanStep :=
  if !(fs.isDir (root ++ [name, tag])) then .skip
  else if !(fs.isFile (root ++ [name, tag, MANIFEST_JSON])) then .skip
  else
    match fs.parse (root ++ [name, tag, MANIFEST_JSON]) with
    | none => .skip
    | some data => scanData data

/-- The inner (`tag`) loop of `find_images` over the listing of the name
directory: the triples yielded in order, with the error if the loop
raised.  A crash keeps the triples yielded before it. -/
def scanTagsLoop (fs : FS) (root : List String) (name : String) :
    List String → List (String × String × String) × Option PyError
  | [] => ([], none)
  | tag :: rest =>
    match scanTag fs root name tag with
    | .skip => scanTagsLoop fs root name rest
    | .crash => ([], some .attributeError)
    | .found mt =>
      let res := scanTagsLoop fs root name rest
      ((name, tag, mt) :: res.1, res.2)

/-- The outer (`name`) loop of `find_images` over the listing of the
root: non-directories are skipped; a crash in the inner loop stops the
whole scan, keeping the triples yielded so far. -/
def scanNamesLoop (fs : FS) (root : List String) :
    List String → List (String × String × String) × Option PyError
  | [] => ([], none)
  | name :: rest =>
    if fs.isDir (root ++ [name]) then
      let res1 := scanTagsLoop fs root name (fs.listdir (root ++ [name]))
      match res1.2 with
      | some e => (res1.1, some e)
      | none =>
        let res2 := scanNamesLoop fs root rest
        (res1.1 ++ res2.1, res2.2)
    else scanNamesLoop fs root rest

/-- `find_images(root)`: the `(name, tag, media_type)` triples yielded,
paired with the exception the generator raised, if any. -/
def find_images (fs : FS) (root : List String) :
    List (String × String × String) × Option PyError :=
  scanNamesLoop fs root (fs.listdir root)

/-! ## SHA-256 over byte lists -/

/-- `2 ^ 32`, the word modulus of SHA-256 arithmetic. -/
def w32mod : Nat := 4294967296

/-- Right rotation of a 32-bit word. -/
def rotr (k x : Nat) : Nat := ((x >>> k) ||| (x <<< (32 - k))) % w32mod

/-- SHA-256 big sigma 0. -/
def bsig0 (x : Nat) : Nat := (rotr 2 x) ^^^ (rotr 13 x) ^^^ (rotr 22 x)

/-- SHA-256 big sigma 1. -/
def bsig1 (x : Nat) : Nat := (rotr 6 x) ^^^ (rotr 11 x) ^^^ (rotr 25 x)

/-- SHA-256 small sigma 0. -/
def ssig0 (x : Nat) : Nat := (rotr 7 x) ^^^ (rotr 18 x) ^^^ (x >>> 3)

/-- SHA-256 small sigma 1. -/
def ssig1 (x : Nat) : Nat := (rotr 17 x) ^^^ (rotr 19 x) ^^^ (x >>> 10)

/-- SHA-256 choose function. -/
def chF (x y z : Nat) : Nat := (x &&& y) ^^^ ((x ^^^ 4294967295) &&& z)

/-- SHA-256 majority function. -/
def majF (x y z : Nat) : Nat := (x &&& y) ^^^ (x &&& z) ^^^ (y &&& z)

/-- The eight 32-bit working variables / hash state of SHA-256. -/
structure H8 where
  a : Nat
  b : Nat
  c : Nat
  d : Nat
  e : Nat
  f : Nat
  g : Nat
  h : Nat
deriving DecidableEq

/-- The 64 SHA-256 round constants (decimal). -/
def sha256K : List Nat :=
  [1116352408, 1899447441, 3049323471, 3921009573, 961987163,
   1508970993, 2453635748, 2870763221, 3624381080, 310598401,
   607225278, 1426881987, 1925078388, 2162078206, 2614888103,
   3248222580, 3835390401, 4022224774, 264347078, 604807628,
   770255983, 1249150122, 1555081692, 1996064986, 2554220882,
   2821834349, 2952996808, 3210313671, 3336571891, 3584528711,
   113926993, 338241895, 666307205, 773529912, 1294757372,
   1396182291, 1695183700, 1986661051, 2177026350, 2456956037,
   2730485921, 2820302411, 3259730800, 3345764771, 3516065817,
   3600352804, 4094571909, 275423344, 430227734, 506948616,
   659060556, 883997877, 958139571, 1322822218, 1537002063,
   1747873779, 1955562222, 2024104815, 2227730452, 2361852424,
   2428436474, 2756734187, 3204031479, 3329325298]

/-- One SHA-256 compression round; `kw` is `K[t] + W[t]`. -/
def sha256round (s : H8) (kw : Nat) : H8 :=
  let t1 := (s.h + bsig1 s.e + chF s.e s.f s.g + kw) % w32mod
  let t2 := (bsig0 s.a + majF s.a s.b s.c) % w32mod
  ⟨(t1 + t2) % w32mod, s.a, s.b, s.c, (s.d + t1) % w32mod, s.e, s.f, s.g⟩

/-- Big-endian packing of bytes into 32-bit words. -/
def bytesToWords : List Nat → List Nat
  | b0 :: b1 :: b2 :: b3 :: rest =>
      ((b0 <<< 24) + (b1 <<< 16) + (b2 <<< 8) + b3) :: bytesToWords rest
  | _ => []

/-- Extend the message schedule by one word. -/
def scheduleStep (w : List Nat) : List Nat :=
  let l := w.length
  w ++ [(ssig1 (w.getD (l - 2) 0) + w.getD (l - 7) 0 +
         ssig0 (w.getD (l - 15) 0) + w.getD (l - 16) 0) % w32mod]

/-- Iterate the schedule extension. -/
def scheduleN : Nat → List Nat → List Nat
  | 0, w => w
  | n + 1, w => scheduleN n (scheduleStep w)

/-- Compress one 64-byte block into the hash state. -/
def compressBlock (hIn : H8) (block : List Nat) : H8 :=
  let w := scheduleN 48 (bytesToWords block)
  let kw := (List.zip sha256K w).map (fun p => p.1 + p.2)
  let s := kw.foldl sha256round hIn
  ⟨(hIn.a + s.a) % w32mod, (hIn.b + s.b) % w32mod, (hIn.c + s.c) % w32mod,
   (hIn.d + s.d) % w32mod, (hIn.e + s.e) % w32mod, (hIn.f + s.f) % w32mod,
   (hIn.g + s.g) % w32mod, (hIn.h + s.h) % w32mod⟩

/-- Big-endian 8-byte encoding of the bit length. -/
def be8 (n : Nat) : List Nat :=
  [(n >>> 56) % 256, (n >>> 48) % 256, (n >>> 40) % 256, (n >>> 32) % 256,
   (n >>> 24) % 256, (n >>> 16) % 256, (n >>> 8) % 256, n % 256]

/-- SHA-256 padding: `0x80`, zeros to 56 mod 64, 8-byte bit length. -/
def sha256pad (m : List Nat) : List Nat :=
  m ++ 128 :: (List.replicate ((119 - m.length % 64) % 64) 0 ++ be8 (8 * m.length))

/-- Fuel-driven splitting of a list into chunks of at most `n` elements
(structural recursion so that the kernel can evaluate it; the fuel is
always instantiated with the list length, which suffices for `n > 0`). -/
def chunksOfAux (n : Nat) : Nat → List α → List (List α)
  | 0, _ => []
  | _, [] => []
  | fuel + 1, x :: xs => (x :: xs).take n :: chunksOfAux n fuel ((x :: xs).drop n)

/-- Split a list into consecutive chunks of `n` elements (the last chunk
may be shorter). -/
def chunksOf (n : Nat) (l : List α) : List (List α) := chunksOfAux n l.length l

/-- The SHA-256 initial hash value (decimal). -/
def sha256H0 : H8 :=
  ⟨1779033703, 3144134277, 1013904242, 2773480762,
   1359893119, 2600822924, 528734635, 1541459225⟩

/-- The SHA-256 state after absorbing a full message. -/
def sha256run (m : List Nat) : H8 :=
  (chunksOf 64 (sha256pad m)).foldl compressBlock sha256H0

/-- The sixteen lowercase hexadecimal digit characters. -/
def hexDigits : List Char := "0123456789abcdef".data

/-- The lowercase hex character of the low nibble of `y`. -/
def nib (y : Nat) : Char := hexDigits.getD (y % 16) '0'

/-- The eight lowercase hex characters of a 32-bit word, most significant
nibble first. -/
def hexWordChars (x : Nat) : List Char :=
  [nib (x >>> 28), nib (x >>> 24), nib (x >>> 20), nib (x >>> 16),
   nib (x >>> 12), nib (x >>> 8), nib (x >>> 4), nib x]

/-- The character list of the SHA-256 hex digest. -/
def sha256hexChars (m : List Nat) : List Char :=
  hexWordChars (sha256run m).a ++ hexWordChars (sha256run m).b ++
  hexWordChars (sha256run m).c ++ hexWordChars (sha256run m).d ++
  hexWordChars (sha256run m).e ++ hexWordChars (sha256run m).f ++
  hexWordChars (sha256run m).g ++ hexWordChars (sha256run m).h

/-- `hashlib.sha256(m).hexdigest()`: the 64-character lowercase
hexadecimal SHA-256 digest of a byte list. -/
def sha256hex (m : List Nat) : String := String.mk (sha256hexChars m)

/-- The read loop of `compute_digest`: `iter(lambda: file.read(4096), b'')`
delivers the file content in chunks of (at most) 4096 bytes. -/
def readChunks (content : List Nat) : List (List Nat) := chunksOf 4096 content

/-- The byte stream absorbed by successive `digest.update(chunk)` calls:
the concatenation of the chunks in order. -/
def absorbChunks (chunks : List (List Nat)) : List Nat :=
  chunks.foldl (fun acc c => acc ++ c) []

/-- `compute_digest(filename)`: opens the file (propagating the I/O error
as `none` if it vanished), reads it in 4096-byte chunks, feeds each chunk
to the SHA-256 state and returns the hex digest. -/
def compute_digest (fs : FS) (path : List String) : Option String :=
  match fs.fileBytes path with
  | none => none
  | some content => some (sha256hex (absorbChunks (readChunks content)))

/-! ## Text rendering of the emitted configuration fragments -/

/-- Join strings with a separator (`sep.join(...)` in Python). -/
def strJoinWith (sep : String) : List String → String
  | [] => ""
  | [x] => x
  | x :: y :: rest => x ++ sep ++ strJoinWith sep (y :: rest)

/-- `json.dumps` escaping of a single character (default `ensure_ascii`):
quote, backslash and the short control escapes, `\uXXXX` for other
control and non-ASCII characters, surrogate pairs beyond the BMP. -/
def jsonEscapeChar (c : Char) : String :=
  if c == '"' then "\\\""
  else if c == '\\' then "\\\\"
  else if c == '\n' then "\\n"
  else if c == '\r' then "\\r"
  else if c == '\t' then "\\t"
  else if c.toNat == 8 then "\\b"
  else if c.toNat == 12 then "\\f"
  else if c.toNat < 32 ∨ (127 ≤ c.toNat ∧ c.toNat < 65536) then
    "\\u" ++ String.mk [nib (c.toNat >>> 12), nib (c.toNat >>> 8), nib (c.toNat >>> 4), nib c.toNat]
  else if c.toNat < 127 then String.mk [c]
  else
    "\\u" ++ String.mk [nib ((55296 + ((c.toNat - 65536) >>> 10)) >>> 12),
                        nib ((55296 + ((c.toNat - 65536) >>> 10)) >>> 8),
                        nib ((55296 + ((c.toNat - 65536) >>> 10)) >>> 4),
                        nib (55296 + ((c.toNat - 65536) >>> 10))] ++
    "\\u" ++ String.mk [nib ((56320 + ((c.toNat - 65536) % 1024)) >>> 12),
                        nib ((56320 + ((c.toNat - 65536) % 1024)) >>> 8),
                        nib ((56320 + ((c.toNat - 65536) % 1024)) >>> 4),
                        nib (56320 + ((c.toNat - 65536) % 1024))]

/-- `json.dumps` escaping of a string body. -/
def jsonEscape (s : String) : String := String.join (s.data.map jsonEscapeChar)

/-- A `json.dumps` string literal. -/
def jsonStrLit (s : String) : String := "\"" ++ jsonEscape s ++ "\""

/-- `json.dumps({'name': name, 'tags': tags})` with default separators. -/
def tagListPayload (name : String) (tags : List String) : String :=
  "\x7b\"name\": " ++ jsonStrLit name ++ ", \"tags\": [" ++
    strJoinWith ", " (tags.map jsonStrLit) ++ "]\x7d"

/-- The `CONSTANTS` template: the `/v2` redirect, the `/v2/` probe and
the internal `@404_tag` fallback with the `TAG_INVALID` JSON body. -/
def constantsText : String :=
  "\nlocation = /v2 \x7b\n    return 301 /v2/;\n\x7d\n\nlocation = /v2/ \x7b\n    return 200 \x27ok\x27;\n\x7d\n\nlocation @404_tag \x7b\n    internal;\n    types \x7b \x7d default_type \"application/json\";\n    return 404 \x27\x7b\"errors\": [\x7b\"code\": \"TAG_INVALID\", \"message\": \"manifest tag did not match URI\", \"detail\": \"\"\x7d]\x7d\x27;\n\x7d\n"

/-- One value yielded by `create_config`, as the tuple of interpolation
arguments of the corresponding string template of the source. -/
inductive Fragment where
  | constants : Fragment
  | tagList (npfx name : String) (tags : List String) : Fragment
  | manifestByTag (npfx name tag mt d server_root : String) : Fragment
  | manifestByDigest (npfx name tag mt d server_root : String) : Fragment
  | digestComment (name tag : String) : Fragment
  | blobRoute (npfx server_root name : String) (tags : List String) : Fragment
deriving DecidableEq

/-- The shared body of the manifest-by-tag and manifest-by-digest
location blocks: alias to the tag directory, the recorded media type as
default type, the `Docker-Content-Digest` header, `try_files` on
`manifest.json` and the `@404_tag` fallback. -/
def manifestBody (server_root name tag mt d : String) : String :=
  "    alias " ++ server_root ++ "/" ++ name ++ "/" ++ tag ++ "/;\n" ++
  "    types \x7b \x7d default_type \"" ++ mt ++ "\";\n" ++
  "    add_header \x27Docker-Content-Digest\x27 \x27sha256:" ++ d ++ "\x27;\n" ++
  "    try_files manifest.json =404;\n" ++
  "    error_page 404 @404_tag;\n\x7d\n"

/-- The location path matched by a fragment, when it is a route. -/
def Fragment.routePath : Fragment → Option String
  | .constants => none
  | .tagList npfx name _ => some ("/v2/" ++ npfx ++ name ++ "/tags/list")
  | .manifestByTag npfx name tag _ _ _ => some ("/v2/" ++ npfx ++ name ++ "/manifests/" ++ tag)
  | .manifestByDigest npfx name _ _ d _ =>
      some ("/v2/" ++ npfx ++ name ++ "/manifests/sha256:" ++ d)
  | .digestComment _ _ => none
  | .blobRoute npfx _ name _ =>
      some ("/v2/" ++ npfx ++ name ++ "/blobs/sha256:([a-f0-9]\x7b64\x7d)")

/-- The image name a fragment belongs to, when it is image-scoped. -/
def Fragment.imageName : Fragment → Option String
  | .constants => none
  | .tagList _ name _ => some name
  | .manifestByTag _ name _ _ _ _ => some name
  | .manifestByDigest _ name _ _ _ _ => some name
  | .digestComment name _ => some name
  | .blobRoute _ _ name _ => some name

/-- The exact text the source yields for a fragment: each equation is the
corresponding `'''...'''.format(...)` template. -/
def Fragment.render : Fragment → String
  | .constants => constantsText
  | .tagList npfx name tags =>
      "\nlocation = /v2/" ++ npfx ++ name ++ "/tags/list \x7b\n" ++
      "    types \x7b \x7d default_type \"application/json\";\n" ++
      "    return 200 \x27" ++ tagListPayload name tags ++ "\x27;\n\x7d\n"
  | .manifestByTag npfx name tag mt d server_root =>
      "\nlocation = \"/v2/" ++ npfx ++ name ++ "/manifests/" ++ tag ++ "\" \x7b\n" ++
      manifestBody server_root name tag mt d
  | .manifestByDigest npfx name tag mt d server_root =>
      "\nlocation = \"/v2/" ++ npfx ++ name ++ "/manifests/sha256:" ++ d ++ "\" \x7b\n" ++
      manifestBody server_root name tag mt d
  | .digestComment name tag =>
      "\n# Digest for \"" ++ name ++ ":" ++ tag ++ "\" already served\n"
  | .blobRoute npfx server_root name tags =>
      "\nlocation ~ \"/v2/" ++ npfx ++ name ++ "/blobs/sha256:([a-f0-9]\x7b64\x7d)\" \x7b\n" ++
      "    alias " ++ server_root ++ "/" ++ name ++ "/;\n" ++
      "    try_files " ++ strJoinWith " " (tags.map (fun t => t ++ "/$1")) ++ " =404;\n\x7d\n"

/-! ## The emitter -/

/-- Python `s.lstrip('/')`. -/
def pyLstripSlash (s : String) : String :=
  String.mk (s.data.dropWhile (fun c => c == '/'))

/-- Python `s.strip('/')`. -/
def pyStripSlash (s : String) : String :=
  String.mk (((s.data.dropWhile (fun c => c == '/')).reverse.dropWhile
    (fun c => c == '/')).reverse)

/-- The CLI normalization `'{}/'.format((args.name_prefix or '').strip('/'))`
of `main`; `none` is an absent `--name-prefix` flag. -/
def cliPrefixNorm (arg : Option String) : String :=
  pyStripSlash (arg.getD "") ++ "/"

/-- Python `dict` assignment `d[k] = v` on an association list: the first
binding of the key is updated in place, a fresh key is appended. -/
def dictInsert (k : String) (v : α) : List (String × α) → List (String × α)
  | [] => [(k, v)]
  | (k1, v1) :: rest =>
      if k1 = k then (k1, v) :: rest else (k1, v1) :: dictInsert k v rest

/-- `images.setdefault(name, {})[tag] = media_type`. -/
def imagesInsert (name tag mt : String) :
    List (String × List (String × String)) → List (String × List (String × String))
  | [] => [(name, [(tag, mt)])]
  | (n, tags) :: rest =>
      if n = name then (n, dictInsert tag mt tags) :: rest
      else (n, tags) :: imagesInsert name tag mt rest

/-- The aggregation loop of `create_config`: fold the discovered triples
into the nested `images` dict. -/
def aggregate (l : List (String × String × String)) :
    List (String × List (String × String)) :=
  l.foldl (fun imgs t => imagesInsert t.1 t.2.1 t.2.2 imgs) []

/-- Python `sorted` on a list of strings. -/
def sortStr (l : List String) : List String :=
  List.insertionSort (fun a b => strLe a b = true) l

/-- Python `sorted` on `dict.items()`: pairs ordered by key (keys of a
dict are unique, so the value tie-break of tuple comparison is never
consulted). -/
def sortByKey (l : List (String × α)) : List (String × α) :=
  List.insertionSort (fun a b : String × α => strLe a.1 b.1 = true) l

/-- The sorted image inventory `sorted(images.items())` built by
`create_config` from the discovery output. -/
def imagesOf (fs : FS) (root : List String) :
    List (String × List (String × String)) :=
  sortByKey (aggregate (find_images fs root).1)

/-- The `for (tag, media_type) in sorted(tags.items())` loop body of
`create_config` for one image: digest the tag's manifest (stopping with
the I/O error if it vanished), yield the manifest-by-tag route, then
either the manifest-by-digest route (digest not seen yet) or the
explanatory comment, and add the digest to `seen_digests`. -/
def emitTags (fs : FS) (root : List String) (server_root npfx name : String) :
    List (String × String) → List String → List Fragment × Option PyError
  | [], _ => ([], none)
  | (tag, mt) :: rest, seen =>
    match compute_digest fs (root ++ [name, tag, MANIFEST_JSON]) with
    | none => ([], some .ioError)
    | some d =>
      let fr1 := Fragment.manifestByTag (pyLstripSlash npfx) name tag mt d server_root
      let fr2 := if seen.contains d then Fragment.digestComment name tag
                 else Fragment.manifestByDigest (pyLstripSlash npfx) name tag mt d server_root
      let res := emitTags fs root server_root npfx name rest (d :: seen)
      (fr1 :: fr2 :: res.1, res.2)

/-- The per-image part of `create_config`: the tag-list route, the
manifest routes of all tags in sorted order with a fresh `seen_digests`,
and, when no tag failed to digest, the final blob route probing the
sorted tags. -/
def emitImage (fs : FS) (root : List String) (server_root npfx : String)
    (img : String × List (String × String)) : List Fragment × Option PyError :=
  let tl := Fragment.tagList (pyLstripSlash npfx) img.1 (sortStr (img.2.map Prod.fst))
  let res := emitTags fs root server_root npfx img.1 (sortByKey img.2) []
  match res.2 with
  | some e => (tl :: res.1, some e)
  | none =>
      (tl :: (res.1 ++
        [Fragment.blobRoute (pyLstripSlash npfx) server_root img.1
          (sortStr (img.2.map Prod.fst))]), none)

/-- The `for (name, tags) in sorted(images.items())` loop of
`create_config`: an error inside one image stops the run, keeping the
fragments yielded so far. -/
def emitImages (fs : FS) (root : List String) (server_root npfx : String) :
    List (String × List (String × String)) → List Fragment × Option PyError
  | [] => ([], none)
  | img :: rest =>
    let res1 := emitImage fs root server_root npfx img
    match res1.2 with
    | some e => (res1.1, some e)
    | none =>
      let res2 := emitImages fs root server_root npfx rest
      (res1.1 ++ res2.1, res2.2)

/-- `create_config(root, server_root, name_prefix, with_constants,
only_constants)`: the fragments the generator yields before terminating
or raising, with the raised exception if any. -/
def create_config (fs : FS) (root : List String) (server_root npfx : String)
    (with_constants only_constants : Bool) : List Fragment × Option PyError :=
  let head := if with_constants then [Fragment.constants] else []
  if only_constants then (head, none)
  else
    match (find_images fs root).2 with
    | some e => (head, some e)
    | none =>
      let res := emitImages fs root server_root npfx (imagesOf fs root)
      (head ++ res.1, res.2)

/-- The text written to standard output: the concatenation of the
rendered fragments yielded before the generator finished or raised. -/
def create_config_text (fs : FS) (root : List String) (server_root npfx : String)
    (with_constants only_constants : Bool) : String :=
  String.join (((create_config fs root server_root npfx with_constants only_constants).1).map
    Fragment.render)

/-! ## Observation functions used to state the properties -/

/-- Is this fragment a manifest-by-tag route of the given image? -/
def isTagRouteOf (name : String) : Fragment → Bool
  | .manifestByTag _ n _ _ _ _ => n == name
  | _ => false

/-- Is this fragment a manifest-by-digest route of the given image and
digest? -/
def isDigestRouteOf (name d : String) : Fragment → Bool
  | .manifestByDigest _ n _ _ d1 _ => n == name && d1 == d
  | _ => false

/-- Is this fragment the blob route of the given image? -/
def isBlobRouteOf (name : String) : Fragment → Bool
  | .blobRoute _ _ n _ => n == name
  | _ => false

/-- The interpolated name-prefix argument of a fragment, when it has
one. -/
def Fragment.npfxOf : Fragment → Option String
  | .constants => none
  | .tagList q _ _ => some q
  | .manifestByTag q _ _ _ _ _ => some q
  | .manifestByDigest q _ _ _ _ _ => some q
  | .digestComment _ _ => none
  | .blobRoute q _ _ _ => some q

/-- The image name of a tag-list fragment. -/
def tagListNameF : Fragment → Option String
  | .tagList _ n _ => some n
  | _ => none

/-- The image names of the tag-list fragments of an output, in emission
order. -/
def tagListNames (l : List Fragment) : List String := l.filterMap tagListNameF

/-- The tag of a manifest-by-tag route of the given image. -/
def tagRouteTagF (name : String) : Fragment → Option String
  | .manifestByTag _ n t _ _ _ => if n = name then some t else none
  | _ => none

/-- The tags of the manifest-by-tag routes of one image in an output, in
emission order. -/
def tagRouteTags (name : String) (l : List Fragment) : List String :=
  l.filterMap (tagRouteTagF name)

/-- The discovery-eligibility predicate of the specification: the name
and tag entries are directories listed by their parents, `manifest.json`
exists there as a file and parses to a truthy JSON object whose
`schemaVersion` is the integer 2 and whose `mediaType` is on the
allow-list. -/
def validTriple (fs : FS) (root : List String) (name tag mt : String) : Prop :=
  name ∈ fs.listdir root ∧ fs.isDir (root ++ [name]) = true ∧
  tag ∈ fs.listdir (root ++ [name]) ∧ fs.isDir (root ++ [name, tag]) = true ∧
  fs.isFile (root ++ [name, tag, MANIFEST_JSON]) = true ∧
  ∃ kvs, fs.parse (root ++ [name, tag, MANIFEST_JSON]) = some (PyJson.obj kvs) ∧
    pyTruthy (PyJson.obj kvs) = true ∧
    objLookup kvs "schemaVersion" = some (PyJson.num 2) ∧
    objLookup kvs "mediaType" = some (PyJson.str mt) ∧ mt ∈ mediaTypes

/-! ## Concrete filesystems used as witnesses -/

/-- The Docker distribution manifest v2 media type, as a shorthand for
the concrete examples. -/
def dockerMT : String := "application/vnd.docker.distribution.manifest.v2+json"

/-- A well-formed manifest object for the Docker v2 media type. -/
def dockerManifest : PyJson :=
  PyJson.obj [("schemaVersion", PyJson.num 2),
              ("mediaType", PyJson.str "application/vnd.docker.distribution.manifest.v2+json")]

/-- The three manifest paths of the witness tree. -/
def wfsManifests : List (List String) :=
  [["r", "app", "v1", "manifest.json"],
   ["r", "app", "v2", "manifest.json"],
   ["r", "lib", "x", "manifest.json"]]

/-- A concrete witness tree `r/` with images `app` (tags `v1`, `v2`) and
`lib` (tag `x`); all three manifest files have identical (empty) byte
content, so all three digests coincide. -/
def wfs : FS where
  listdir := fun p =>
    if p = ["r"] then ["app", "lib"]
    else if p = ["r", "app"] then ["v2", "v1"]
    else if p = ["r", "lib"] then ["x"]
    else []
  isDir := fun p =>
    decide (p = ["r", "app"] ∨ p = ["r", "lib"] ∨ p = ["r", "app", "v1"] ∨
      p = ["r", "app", "v2"] ∨ p = ["r", "lib", "x"])
  isFile := fun p => decide (p ∈ wfsManifests)
  parse := fun p => if p ∈ wfsManifests then some dockerManifest else none
  fileBytes := fun p => if p ∈ wfsManifests then some [] else none

/-- The witness tree in which the manifest of `app:v2` (and of `lib:x`)
has vanished between discovery and digesting. -/
def vfs : FS where
  listdir := wfs.listdir
  isDir := wfs.isDir
  isFile := wfs.isFile
  parse := wfs.parse
  fileBytes := fun p => if p = ["r", "app", "v1", "manifest.json"] then some [] else none

/-- A tree whose single manifest file parses to a truthy non-object JSON
value (`[1]`): `data.get('schemaVersion')` raises `AttributeError`. -/
def badFS : FS where
  listdir := fun p => if p = [] then ["a"] else if p = ["a"] then ["t"] else []
  isDir := fun p => decide (p = ["a"] ∨ p = ["a", "t"])
  isFile := fun p => decide (p = ["a", "t", "manifest.json"])
  parse := fun p => if p = ["a", "t", "manifest.json"] then some (PyJson.arr [PyJson.num 1]) else none
  fileBytes := fun _ => none

/-! ## Order facts for the Python sort -/

theorem charListLe_total : ∀ a b : List Char, charListLe a b = true ∨ charListLe b a = true := by
  intro a
  induction a with
  | nil => intro b; left; rfl
  | cons x xs ih =>
    intro b
    cases b with
    | nil => right; rfl
    | cons y ys =>
      by_cases h1 : x.toNat < y.toNat
      · left; simp [charListLe, h1]
      · by_cases h2 : x.toNat = y.toNat
        · rcases ih ys with h | h
          · left; simp [charListLe, h1, h2, h]
          · right
            have h3 : ¬ y.toNat < x.toNat := by omega
            simp [charListLe, h3, h2.symm, h]
        · right
          have h3 : y.toNat < x.toNat := by omega
          simp [charListLe, h3]

theorem charListLe_trans :
    ∀ a b c : List Char, charListLe a b = true → charListLe b c = true →
      charListLe a c = true := by
  intro a
  induction a with
  | nil => intro b c _ _; rfl
  | cons x xs ih =>
    intro b c hab hbc
    cases b with
    | nil => simp [charListLe] at hab
    | cons y ys =>
      cases c with
      | nil => simp [charListLe] at hbc
      | cons z zs =>
        simp only [charListLe] at hab hbc ⊢
        by_cases h1 : x.toNat < y.toNat <;> by_cases h2 : y.toNat < z.toNat
        · have h5 : x.toNat < z.toNat := by omega
          simp [h5]
        · by_cases h3 : y.toNat = z.toNat
          · have h5 : x.toNat < z.toNat := by omega
            simp [h5]
          · simp [h2, h3] at hbc
        · by_cases h3 : x.toNat = y.toNat
          · have h5 : x.toNat < z.toNat := by omega
            simp [h5]
          · simp [h1, h3] at hab
        · by_cases h3 : x.toNat = y.toNat
          · by_cases h4 : y.toNat = z.toNat
            · have h5 : ¬ x.toNat < z.toNat := by omega
              have h6 : x.toNat = z.toNat := by omega
              simp only [if_neg h1, if_pos h3] at hab
              simp only [if_neg h2, if_pos h4] at hbc
              simp only [if_neg h5, if_pos h6]
              exact ih ys zs hab hbc
            · simp [h2, h4] at hbc
          · simp [h1, h3] at hab

theorem strLe_total (a b : String) : strLe a b = true ∨ strLe b a = true :=
  charListLe_total a.data b.data

theorem strLe_trans {a b c : String} (h1 : strLe a b = true) (h2 : strLe b c = true) :
    strLe a c = true :=
  charListLe_trans a.data b.data c.data h1 h2

instance : IsTotal String (fun a b => strLe a b = true) := ⟨strLe_total⟩

instance : IsTrans String (fun a b => strLe a b = true) := ⟨fun _ _ _ => strLe_trans⟩

instance {α : Type} : IsTotal (String × α) (fun a b : String × α => strLe a.1 b.1 = true) :=
  ⟨fun a b => strLe_total a.1 b.1⟩

instance {α : Type} : IsTrans (String × α) (fun a b : String × α => strLe a.1 b.1 = true) :=
  ⟨fun _ _ _ => strLe_trans⟩

theorem sortStr_sorted (l : List String) :
    List.Sorted (fun a b => strLe a b = true) (sortStr l) :=
  List.sorted_insertionSort _ l

theorem sortStr_perm (l : List String) : (sortStr l).Perm l :=
  List.perm_insertionSort _ l

theorem sortByKey_sorted {α : Type} (l : List (String × α)) :
    List.Sorted (fun a b : String × α => strLe a.1 b.1 = true) (sortByKey l) :=
  List.sorted_insertionSort _ l

theorem sortByKey_perm {α : Type} (l : List (String × α)) : (sortByKey l).Perm l :=
  List.perm_insertionSort _ l

/-! ## Chunking facts -/

theorem chunksOfAux_length_le {α : Type} (n : Nat) :
    ∀ (fuel : Nat) (l : List α), ∀ ch ∈ chunksOfAux n fuel l, ch.length ≤ n := by
  intro fuel
  induction fuel with
  | zero => intro l ch h; simp [chunksOfAux] at h
  | succ f ih =>
    intro l ch h
    cases l with
    | nil => simp [chunksOfAux] at h
    | cons x xs =>
      simp only [chunksOfAux] at h
      rcases List.mem_cons.mp h with h | h
      · subst h
        simp [List.length_take]
      · exact ih _ ch h

theorem chunksOfAux_flatten {α : Type} (n : Nat) (hn : 0 < n) :
    ∀ (fuel : Nat) (l : List α), l.length ≤ fuel →
      ∀ acc : List α, (chunksOfAux n fuel l).foldl (fun a c => a ++ c) acc = acc ++ l := by
  intro fuel
  induction fuel with
  | zero =>
    intro l hl acc
    have h0 : l = [] := List.eq_nil_of_length_eq_zero (Nat.le_zero.mp hl)
    subst h0
    simp [chunksOfAux]
  | succ f ih =>
    intro l hl acc
    cases l with
    | nil => simp [chunksOfAux]
    | cons x xs =>
      simp only [chunksOfAux, List.foldl_cons]
      rw [ih ((x :: xs).drop n) ?hlen (acc ++ (x :: xs).take n)]
      · rw [List.append_assoc, List.take_append_drop]
      case hlen =>
        simp only [List.length_drop, List.length_cons]
        simp only [List.length_cons] at hl
        omega

theorem absorbChunks_readChunks (content : List Nat) :
    absorbChunks (readChunks content) = content := by
  unfold absorbChunks readChunks chunksOf
  simpa using chunksOfAux_flatten 4096 (by omega) content.length content (le_refl _) []

theorem readChunks_size (content : List Nat) :
    ∀ ch ∈ readChunks content, ch.length ≤ 4096 :=
  chunksOfAux_length_le 4096 content.length content

/-! ## Shape of the hex digest -/

theorem nib_mem (y : Nat) : nib y ∈ hexDigits := by
  unfold nib
  have h : y % 16 < 16 := Nat.mod_lt _ (by omega)
  have h2 : y % 16 < hexDigits.length := by
    have hl : hexDigits.length = 16 := by decide
    omega
  rw [List.getD_eq_getElem _ _ h2]
  exact List.getElem_mem _

theorem hexWordChars_subset (x : Nat) : ∀ c ∈ hexWordChars x, c ∈ hexDigits := by
  intro c hc
  simp [hexWordChars] at hc
  rcases hc with rfl | rfl | rfl | rfl | rfl | rfl | rfl | rfl <;> exact nib_mem _

theorem sha256hex_length (m : List Nat) : (sha256hex m).length = 64 := by
  show (sha256hexChars m).length = 64
  simp [sha256hexChars, hexWordChars]

theorem sha256hex_chars (m : List Nat) : ∀ c ∈ (sha256hex m).data, c ∈ hexDigits := by
  intro c hc
  have hc2 : c ∈ sha256hexChars m := hc
  simp only [sha256hexChars, List.mem_append] at hc2
  rcases hc2 with ((((((h | h) | h) | h) | h) | h) | h) | h <;> exact hexWordChars_subset _ _ h

/-! ## Behaviour of the per-tag emission loop -/

theorem emitTags_err_none (fs : FS) (root : List String) (sr np name : String) :
    ∀ (l : List (String × String)) (seen : List String),
      (∀ p ∈ l, (compute_digest fs (root ++ [name, p.1, MANIFEST_JSON])).isSome) →
      (emitTags fs root sr np name l seen).2 = none := by
  intro l
  induction l with
  | nil => intro seen _; rfl
  | cons p rest ih =>
    intro seen hall
    obtain ⟨tag, mt⟩ := p
    have h1 := hall (tag, mt) (by simp)
    cases hdg : compute_digest fs (root ++ [name, tag, MANIFEST_JSON]) with
    | none => rw [hdg] at h1; simp at h1
    | some d =>
      simp only [emitTags, hdg]
      exact ih (d :: seen) (fun q hq => hall q (by simp [hq]))

theorem emitTags_isSome_of_err_none (fs : FS) (root : List String) (sr np name : String) :
    ∀ (l : List (String × String)) (seen : List String),
      (emitTags fs root sr np name l seen).2 = none →
      ∀ p ∈ l, (compute_digest fs (root ++ [name, p.1, MANIFEST_JSON])).isSome := by
  intro l
  induction l with
  | nil => intro seen _ p hp; simp at hp
  | cons q rest ih =>
    intro seen hnone p hp
    obtain ⟨tag, mt⟩ := q
    cases hdg : compute_digest fs (root ++ [name, tag, MANIFEST_JSON]) with
    | none => simp [emitTags, hdg] at hnone
    | some d =>
      simp only [emitTags, hdg] at hnone
      rcases List.mem_cons.mp hp with rfl | hp2
      · simp [hdg]
      · exact ih (d :: seen) hnone p hp2

theorem emitTags_err_ioError (fs : FS) (root : List String) (sr np name : String) :
    ∀ (l : List (String × String)) (seen : List String),
      (∃ p ∈ l, compute_digest fs (root ++ [name, p.1, MANIFEST_JSON]) = none) →
      (emitTags fs root sr np name l seen).2 = some PyError.ioError := by
  intro l
  induction l with
  | nil => intro seen h; simp at h
  | cons q rest ih =>
    intro seen h
    obtain ⟨tag, mt⟩ := q
    cases hdg : compute_digest fs (root ++ [name, tag, MANIFEST_JSON]) with
    | none => simp [emitTags, hdg]
    | some d =>
      simp only [emitTags, hdg]
      apply ih (d :: seen)
      rcases h with ⟨p, hp, hpd⟩
      rcases List.mem_cons.mp hp with rfl | hp2
      · rw [hdg] at hpd; cases hpd
      · exact ⟨p, hp2, hpd⟩

theorem emitTags_err_shape (fs : FS) (root : List String) (sr np name : String) :
    ∀ (l : List (String × String)) (seen : List String),
      (emitTags fs root sr np name l seen).2 = none ∨
      (emitTags fs root sr np name l seen).2 = some PyError.ioError := by
  intro l
  induction l with
  | nil => intro seen; left; rfl
  | cons q rest ih =>
    intro seen
    obtain ⟨tag, mt⟩ := q
    cases hdg : compute_digest fs (root ++ [name, tag, MANIFEST_JSON]) with
    | none => right; simp [emitTags, hdg]
    | some d =>
      simp only [emitTags, hdg]
      exact ih (d :: seen)

theorem emitTags_shape (fs : FS) (root : List String) (sr np name : String) :
    ∀ (l : List (String × String)) (seen : List String),
      ∀ f ∈ (emitTags fs root sr np name l seen).1,
        (∃ tag mt d, (tag, mt) ∈ l ∧
          compute_digest fs (root ++ [name, tag, MANIFEST_JSON]) = some d ∧
          (f = Fragment.manifestByTag (pyLstripSlash np) name tag mt d sr ∨
           f = Fragment.manifestByDigest (pyLstripSlash np) name tag mt d sr)) ∨
        (∃ tag, (∃ mt, (tag, mt) ∈ l) ∧ f = Fragment.digestComment name tag) := by
  intro l
  induction l with
  | nil => intro seen f hf; simp [emitTags] at hf
  | cons q rest ih =>
    intro seen f hf
    obtain ⟨tag, mt⟩ := q
    cases hdg : compute_digest fs (root ++ [name, tag, MANIFEST_JSON]) with
    | none => simp [emitTags, hdg] at hf
    | some d =>
      simp only [emitTags, hdg] at hf
      rcases List.mem_cons.mp hf with rfl | hf2
      · exact Or.inl ⟨tag, mt, d, by simp, hdg, Or.inl rfl⟩
      rcases List.mem_cons.mp hf2 with rfl | hf3
      · by_cases hsd : seen.contains d = true
        · refine Or.inr ⟨tag, ⟨mt, by simp⟩, ?_⟩
          rw [if_pos hsd]
        · refine Or.inl ⟨tag, mt, d, by simp, hdg, Or.inr ?_⟩
          rw [if_neg hsd]
      · rcases ih (d :: seen) f hf3 with ⟨t, m, dd, hmem, hdd, hor⟩ | ⟨t, ⟨m, hmem⟩, heq⟩
        · exact Or.inl ⟨t, m, dd, by simp [hmem], hdd, hor⟩
        · exact Or.inr ⟨t, ⟨m, by simp [hmem]⟩, heq⟩

theorem emitTags_imageName (fs : FS) (root : List String) (sr np name : String)
    (l : List (String × String)) (seen : List String) :
    ∀ f ∈ (emitTags fs root sr np name l seen).1, f.imageName = some name := by
  intro f hf
  rcases emitTags_shape fs root sr np name l seen f hf with
    ⟨t, m, d, _, _, rfl | rfl⟩ | ⟨t, _, rfl⟩ <;> rfl

theorem emitTags_npfxOf (fs : FS) (root : List String) (sr np name : String)
    (l : List (String × String)) (seen : List String) :
    ∀ f ∈ (emitTags fs root sr np name l seen).1,
      f.npfxOf = none ∨ f.npfxOf = some (pyLstripSlash np) := by
  intro f hf
  rcases emitTags_shape fs root sr np name l seen f hf with
    ⟨t, m, d, _, _, rfl | rfl⟩ | ⟨t, _, rfl⟩
  · right; rfl
  · right; rfl
  · left; rfl

theorem emitTags_tagRoute_mem (fs : FS) (root : List String) (sr np name : String) :
    ∀ (l : List (String × String)) (seen : List String),
      (∀ p ∈ l, (compute_digest fs (root ++ [name, p.1, MANIFEST_JSON])).isSome) →
      ∀ p ∈ l, ∃ d, compute_digest fs (root ++ [name, p.1, MANIFEST_JSON]) = some d ∧
        Fragment.manifestByTag (pyLstripSlash np) name p.1 p.2 d sr ∈
          (emitTags fs root sr np name l seen).1 := by
  intro l
  induction l with
  | nil => intro seen _ p hp; simp at hp
  | cons q rest ih =>
    intro seen hall p hp
    obtain ⟨tag, mt⟩ := q
    have h1 := hall (tag, mt) (by simp)
    cases hdg : compute_digest fs (root ++ [name, tag, MANIFEST_JSON]) with
    | none => rw [hdg] at h1; simp at h1
    | some d =>
      rcases List.mem_cons.mp hp with rfl | hp2
      · exact ⟨d, hdg, by simp [emitTags, hdg]⟩
      · rcases ih (d :: seen) (fun r hr => hall r (by simp [hr])) p hp2 with ⟨d2, hd2, hmem⟩
        refine ⟨d2, hd2, ?_⟩
        simp only [emitTags, hdg]
        exact List.mem_cons_of_mem _ (List.mem_cons_of_mem _ hmem)

theorem emitTags_digest_companion (fs : FS) (root : List String) (sr np name : String) :
    ∀ (l : List (String × String)) (seen : List String) (np2 n t m d s2 : String),
      Fragment.manifestByDigest np2 n t m d s2 ∈ (emitTags fs root sr np name l seen).1 →
      Fragment.manifestByTag np2 n t m d s2 ∈ (emitTags fs root sr np name l seen).1 := by
  intro l
  induction l with
  | nil => intro seen np2 n t m d s2 h; simp [emitTags] at h
  | cons q rest ih =>
    intro seen np2 n t m d s2 h
    obtain ⟨tag, mt⟩ := q
    cases hdg : compute_digest fs (root ++ [name, tag, MANIFEST_JSON]) with
    | none => simp [emitTags, hdg] at h
    | some d0 =>
      simp only [emitTags, hdg] at h ⊢
      rcases List.mem_cons.mp h with heq | h2
      · cases heq
      rcases List.mem_cons.mp h2 with heq | h3
      · by_cases hsd : seen.contains d0
        · rw [if_pos hsd] at heq; cases heq
        · rw [if_neg hsd] at heq
          cases heq
          exact List.mem_cons_self _ _
      · exact List.mem_cons_of_mem _ (List.mem_cons_of_mem _ (ih (d0 :: seen) np2 n t m d s2 h3))

theorem emitTags_tagRoute_count (fs : FS) (root : List String) (sr np name : String) :
    ∀ (l : List (String × String)) (seen : List String),
      (∀ p ∈ l, (compute_digest fs (root ++ [name, p.1, MANIFEST_JSON])).isSome) →
      List.countP (isTagRouteOf name) (emitTags fs root sr np name l seen).1 = l.length := by
  intro l
  induction l with
  | nil => intro seen _; simp [emitTags]
  | cons q rest ih =>
    intro seen hall
    obtain ⟨tag, mt⟩ := q
    have h1 := hall (tag, mt) (by simp)
    cases hdg : compute_digest fs (root ++ [name, tag, MANIFEST_JSON]) with
    | none => rw [hdg] at h1; simp at h1
    | some d =>
      simp only [emitTags, hdg]
      rw [List.countP_cons, List.countP_cons]
      have hfr1 : isTagRouteOf name (Fragment.manifestByTag (pyLstripSlash np) name tag mt d sr)
          = true := by simp [isTagRouteOf]
      have hfr2 : isTagRouteOf name
          (if seen.contains d = true then Fragment.digestComment name tag
           else Fragment.manifestByDigest (pyLstripSlash np) name tag mt d sr) = false := by
        by_cases hsd : seen.contains d = true
        · rw [if_pos hsd]; rfl
        · rw [if_neg hsd]; rfl
      rw [hfr1, hfr2, ih (d :: seen) (fun r hr => hall r (by simp [hr]))]
      simp


theorem contains_mem (l : List String) (a : String) : l.contains a = true ↔ a ∈ l := by
  simp

theorem emitTags_digestRoute_count (fs : FS) (root : List String) (sr np name : String) :
    ∀ (l : List (String × String)) (seen : List String),
      (∀ p ∈ l, (compute_digest fs (root ++ [name, p.1, MANIFEST_JSON])).isSome) →
      ∀ d : String,
        List.countP (isDigestRouteOf name d) (emitTags fs root sr np name l seen).1 =
          if d ∈ seen then 0
          else if ∃ p ∈ l, compute_digest fs (root ++ [name, p.1, MANIFEST_JSON]) = some d
            then 1 else 0 := by
  intro l
  induction l with
  | nil => intro seen _ d; simp [emitTags]
  | cons q rest ih =>
    intro seen hall d
    obtain ⟨tag, mt⟩ := q
    have h1 := hall (tag, mt) (by simp)
    cases hdg : compute_digest fs (root ++ [name, tag, MANIFEST_JSON]) with
    | none => rw [hdg] at h1; simp at h1
    | some d0 =>
      simp only [emitTags, hdg]
      have hrec := ih (d0 :: seen) (fun r hr => hall r (by simp [hr])) d
      have hfr1 : isDigestRouteOf name d
          (Fragment.manifestByTag (pyLstripSlash np) name tag mt d0 sr) = false := rfl
      have hex : (∃ p ∈ (tag, mt) :: rest,
          compute_digest fs (root ++ [name, p.1, MANIFEST_JSON]) = some d) ↔
          (d0 = d ∨ ∃ p ∈ rest,
            compute_digest fs (root ++ [name, p.1, MANIFEST_JSON]) = some d) := by
        constructor
        · rintro ⟨p, hp, hpd⟩
          rcases List.mem_cons.mp hp with rfl | hp2
          · left; rw [hdg] at hpd; exact Option.some_inj.mp hpd
          · right; exact ⟨p, hp2, hpd⟩
        · rintro (rfl | ⟨p, hp2, hpd⟩)
          · exact ⟨(tag, mt), by simp, hdg⟩
          · exact ⟨p, by simp [hp2], hpd⟩
      simp only [hex]
      by_cases hs0 : d0 ∈ seen
      · have hs0c : seen.contains d0 = true := (contains_mem seen d0).mpr hs0
        rw [if_pos hs0c]
        have e2 : isDigestRouteOf name d (Fragment.digestComment name tag) = false := rfl
        by_cases hdd : d0 = d
        · subst hdd
          simp [List.countP_cons, e2, hfr1, hrec, hs0]
        · by_cases hds : d ∈ seen
          · simp [List.countP_cons, e2, hfr1, hrec, hds]
          · have hdd2 : ¬ d = d0 := fun h => hdd h.symm
            simp only [List.countP_cons, e2, hfr1, hrec]
            have hor : (d0 = d ∨ ∃ p ∈ rest,
                compute_digest fs (root ++ [name, p.1, MANIFEST_JSON]) = some d) ↔
                (∃ p ∈ rest, compute_digest fs (root ++ [name, p.1, MANIFEST_JSON]) = some d) :=
              ⟨fun h => h.resolve_left hdd, Or.inr⟩
            simp only [hor]
            have hmc : d ∉ d0 :: seen := by
              simp only [List.mem_cons]
              rintro (rfl | h)
              · exact hdd rfl
              · exact hds h
            rw [if_neg hmc, if_neg hds]
            simp
      · have hs0c : ¬ seen.contains d0 = true := by
          rw [contains_mem]; exact hs0
        rw [if_neg hs0c]
        by_cases hdd : d0 = d
        · subst hdd
          have e2 : isDigestRouteOf name d0
              (Fragment.manifestByDigest (pyLstripSlash np) name tag mt d0 sr) = true := by
            simp [isDigestRouteOf]
          simp [List.countP_cons, e2, hfr1, hrec, hs0]
        · have e2 : isDigestRouteOf name d
              (Fragment.manifestByDigest (pyLstripSlash np) name tag mt d0 sr) = false := by
            simp [isDigestRouteOf, hdd]
          by_cases hds : d ∈ seen
          · simp [List.countP_cons, e2, hfr1, hrec, hds]
          · have hdd2 : ¬ d = d0 := fun h => hdd h.symm
            simp only [List.countP_cons, e2, hfr1, hrec]
            have hor : (d0 = d ∨ ∃ p ∈ rest,
                compute_digest fs (root ++ [name, p.1, MANIFEST_JSON]) = some d) ↔
                (∃ p ∈ rest, compute_digest fs (root ++ [name, p.1, MANIFEST_JSON]) = some d) :=
              ⟨fun h => h.resolve_left hdd, Or.inr⟩
            simp only [hor]
            have hmc : d ∉ d0 :: seen := by
              simp only [List.mem_cons]
              rintro (rfl | h)
              · exact hdd rfl
              · exact hds h
            rw [if_neg hmc, if_neg hds]
            simp

theorem emitTags_first_digest (fs : FS) (root : List String) (sr np name : String) :
    ∀ (l : List (String × String)) (seen : List String),
      (∀ p ∈ l, (compute_digest fs (root ++ [name, p.1, MANIFEST_JSON])).isSome) →
      ∀ (d : String) (p : String × String),
        d ∉ seen →
        l.find? (fun q =>
          compute_digest fs (root ++ [name, q.1, MANIFEST_JSON]) == some d) = some p →
        Fragment.manifestByDigest (pyLstripSlash np) name p.1 p.2 d sr ∈
          (emitTags fs root sr np name l seen).1 := by
  intro l
  induction l with
  | nil => intro seen _ d p _ hfind; simp at hfind
  | cons q rest ih =>
    intro seen hall d p hseen hfind
    obtain ⟨tag, mt⟩ := q
    have h1 := hall (tag, mt) (by simp)
    cases hdg : compute_digest fs (root ++ [name, tag, MANIFEST_JSON]) with
    | none => rw [hdg] at h1; simp at h1
    | some d0 =>
      rw [List.find?_cons] at hfind
      by_cases hdd : d0 = d
      · subst hdd
        have hb : (compute_digest fs (root ++ [name, tag, MANIFEST_JSON]) == some d0)
            = true := by rw [hdg]; simp
        rw [hb] at hfind
        have hp : some (tag, mt) = some p := hfind
        injection hp with hp2
        subst hp2
        simp only [emitTags, hdg]
        have hsf : ¬ seen.contains d0 = true := by rw [contains_mem]; exact hseen
        rw [if_neg hsf]
        exact List.mem_cons_of_mem _ (List.mem_cons_self _ _)
      · have htest : (compute_digest fs (root ++ [name, tag, MANIFEST_JSON]) == some d)
            = false := by rw [hdg]; simp; exact hdd
        rw [htest] at hfind
        have hfind2 : rest.find? (fun q =>
            compute_digest fs (root ++ [name, q.1, MANIFEST_JSON]) == some d) = some p := hfind
        have hseen2 : d ∉ d0 :: seen := by
          simp only [List.mem_cons]
          rintro (rfl | h)
          · exact hdd rfl
          · exact hseen h
        simp only [emitTags, hdg]
        exact List.mem_cons_of_mem _ (List.mem_cons_of_mem _
          (ih (d0 :: seen) (fun r hr => hall r (by simp [hr])) d p hseen2 hfind2))

theorem emitTags_comment_mem (fs : FS) (root : List String) (sr np name : String) :
    ∀ (l : List (String × String)) (seen : List String),
      (∀ p ∈ l, (compute_digest fs (root ++ [name, p.1, MANIFEST_JSON])).isSome) →
      ∀ p ∈ l, ∀ d : String,
        compute_digest fs (root ++ [name, p.1, MANIFEST_JSON]) = some d →
        (d ∈ seen ∨ l.find? (fun q =>
            compute_digest fs (root ++ [name, q.1, MANIFEST_JSON]) == some d) ≠ some p) →
        Fragment.digestComment name p.1 ∈ (emitTags fs root sr np name l seen).1 := by
  intro l
  induction l with
  | nil => intro seen _ p hp; simp at hp
  | cons q rest ih =>
    intro seen hall p hp d hpd hcase
    obtain ⟨tag, mt⟩ := q
    have h1 := hall (tag, mt) (by simp)
    cases hdg : compute_digest fs (root ++ [name, tag, MANIFEST_JSON]) with
    | none => rw [hdg] at h1; simp at h1
    | some d0 =>
      simp only [emitTags, hdg]
      rcases List.mem_cons.mp hp with rfl | hp2
      · have hd0 : d = d0 := Option.some_inj.mp (hpd.symm.trans hdg)
        subst hd0
        have hb : (compute_digest fs (root ++ [name, tag, MANIFEST_JSON]) == some d)
            = true := by rw [hdg]; simp
        have hfindhead : ((tag, mt) :: rest).find? (fun q =>
            compute_digest fs (root ++ [name, q.1, MANIFEST_JSON]) == some d)
            = some (tag, mt) := by
          rw [List.find?_cons, hb]
        have hseen : d ∈ seen := by
          rcases hcase with h | h
          · exact h
          · exact absurd hfindhead h
        have hseenc : seen.contains d = true := (contains_mem seen d).mpr hseen
        rw [if_pos hseenc]
        exact List.mem_cons_of_mem _ (List.mem_cons_self _ _)
      · have hnext : d ∈ d0 :: seen ∨ rest.find? (fun q =>
            compute_digest fs (root ++ [name, q.1, MANIFEST_JSON]) == some d) ≠ some p := by
          rcases hcase with h | h
          · exact Or.inl (List.mem_cons_of_mem _ h)
          · by_cases hdd : d0 = d
            · subst hdd
              exact Or.inl (List.mem_cons_self _ _)
            · right
              intro hfr
              apply h
              have htest : (compute_digest fs (root ++ [name, tag, MANIFEST_JSON]) == some d)
                  = false := by rw [hdg]; simp; exact hdd
              rw [List.find?_cons, htest]
              exact hfr
        exact List.mem_cons_of_mem _ (List.mem_cons_of_mem _
          (ih (d0 :: seen) (fun r hr => hall r (by simp [hr])) p hp2 d hpd hnext))

/-! ## Behaviour of the per-image and whole-run emission -/

theorem emitImage_snd (fs : FS) (root : List String) (sr np : String)
    (img : String × List (String × String)) :
    (emitImage fs root sr np img).2 = (emitTags fs root sr np img.1 (sortByKey img.2) []).2 := by
  cases h : (emitTags fs root sr np img.1 (sortByKey img.2) []).2 with
  | none => simp [emitImage, h]
  | some e => simp [emitImage, h]

theorem emitImage_success_eq (fs : FS) (root : List String) (sr np : String)
    (img : String × List (String × String))
    (h : (emitTags fs root sr np img.1 (sortByKey img.2) []).2 = none) :
    emitImage fs root sr np img =
      (Fragment.tagList (pyLstripSlash np) img.1 (sortStr (img.2.map Prod.fst)) ::
        ((emitTags fs root sr np img.1 (sortByKey img.2) []).1 ++
         [Fragment.blobRoute (pyLstripSlash np) sr img.1 (sortStr (img.2.map Prod.fst))]),
       none) := by
  simp [emitImage, h]

theorem emitImage_err_eq (fs : FS) (root : List String) (sr np : String)
    (img : String × List (String × String)) (e : PyError)
    (h : (emitTags fs root sr np img.1 (sortByKey img.2) []).2 = some e) :
    emitImage fs root sr np img =
      (Fragment.tagList (pyLstripSlash np) img.1 (sortStr (img.2.map Prod.fst)) ::
        (emitTags fs root sr np img.1 (sortByKey img.2) []).1, some e) := by
  simp [emitImage, h]

theorem emitImage_imageName (fs : FS) (root : List String) (sr np : String)
    (img : String × List (String × String)) :
    ∀ f ∈ (emitImage fs root sr np img).1, f.imageName = some img.1 := by
  intro f hf
  cases h : (emitTags fs root sr np img.1 (sortByKey img.2) []).2 with
  | none =>
    rw [emitImage_success_eq fs root sr np img h] at hf
    rcases List.mem_cons.mp hf with rfl | hf2
    · rfl
    rcases List.mem_append.mp hf2 with hf3 | hf3
    · exact emitTags_imageName fs root sr np img.1 _ _ f hf3
    · rcases List.mem_singleton.mp hf3 with rfl
      rfl
  | some e =>
    rw [emitImage_err_eq fs root sr np img e h] at hf
    rcases List.mem_cons.mp hf with rfl | hf2
    · rfl
    · exact emitTags_imageName fs root sr np img.1 _ _ f hf2

theorem emitImage_npfxOf (fs : FS) (root : List String) (sr np : String)
    (img : String × List (String × String)) :
    ∀ f ∈ (emitImage fs root sr np img).1,
      f.npfxOf = none ∨ f.npfxOf = some (pyLstripSlash np) := by
  intro f hf
  cases h : (emitTags fs root sr np img.1 (sortByKey img.2) []).2 with
  | none =>
    rw [emitImage_success_eq fs root sr np img h] at hf
    rcases List.mem_cons.mp hf with rfl | hf2
    · right; rfl
    rcases List.mem_append.mp hf2 with hf3 | hf3
    · exact emitTags_npfxOf fs root sr np img.1 _ _ f hf3
    · rcases List.mem_singleton.mp hf3 with rfl
      right; rfl
  | some e =>
    rw [emitImage_err_eq fs root sr np img e h] at hf
    rcases List.mem_cons.mp hf with rfl | hf2
    · right; rfl
    · exact emitTags_npfxOf fs root sr np img.1 _ _ f hf2

theorem emitImages_success_all (fs : FS) (root : List String) (sr np : String) :
    ∀ imgs : List (String × List (String × String)),
      (emitImages fs root sr np imgs).2 = none →
      ∀ img ∈ imgs, (emitImage fs root sr np img).2 = none := by
  intro imgs
  induction imgs with
  | nil => intro _ img h; simp at h
  | cons i rest ih =>
    intro hnone img hmem
    cases h : (emitImage fs root sr np i).2 with
    | some e => simp [emitImages, h] at hnone
    | none =>
      simp only [emitImages, h] at hnone
      rcases List.mem_cons.mp hmem with rfl | hmem2
      · exact h
      · exact ih hnone img hmem2

theorem emitImages_flatten (fs : FS) (root : List String) (sr np : String) :
    ∀ imgs : List (String × List (String × String)),
      (∀ img ∈ imgs, (emitImage fs root sr np img).2 = none) →
      emitImages fs root sr np imgs =
        ((imgs.map (fun i => (emitImage fs root sr np i).1)).flatten, none) := by
  intro imgs
  induction imgs with
  | nil => intro _; rfl
  | cons i rest ih =>
    intro hall
    have h := hall i (by simp)
    simp only [emitImages, h]
    rw [ih (fun j hj => hall j (by simp [hj]))]
    simp

theorem emitImages_err_shape (fs : FS) (root : List String) (sr np : String) :
    ∀ imgs : List (String × List (String × String)),
      (emitImages fs root sr np imgs).2 = none ∨
      (emitImages fs root sr np imgs).2 = some PyError.ioError := by
  intro imgs
  induction imgs with
  | nil => left; rfl
  | cons i rest ih =>
    cases h : (emitImage fs root sr np i).2 with
    | none => simp only [emitImages, h]; exact ih
    | some e =>
      rcases emitTags_err_shape fs root sr np i.1 (sortByKey i.2) [] with h2 | h2 <;>
        rw [emitImage_snd] at h <;> rw [h2] at h
      · cases h
      · right
        injection h with h3
        subst h3
        simp [emitImages, emitImage_snd, h2]

theorem emitImages_fail (fs : FS) (root : List String) (sr np : String) :
    ∀ (imgs : List (String × List (String × String)))
      (img : String × List (String × String)),
      img ∈ imgs → (emitImage fs root sr np img).2 ≠ none →
      (emitImages fs root sr np imgs).2 ≠ none := by
  intro imgs
  induction imgs with
  | nil => intro img h; simp at h
  | cons i rest ih =>
    intro img hmem hfail
    cases h : (emitImage fs root sr np i).2 with
    | some e => simp [emitImages, h]
    | none =>
      simp only [emitImages, h]
      rcases List.mem_cons.mp hmem with rfl | hmem2
      · exact absurd h hfail
      · exact ih img hmem2 hfail

theorem emitImages_mem_imageName (fs : FS) (root : List String) (sr np : String) :
    ∀ imgs : List (String × List (String × String)),
      ∀ f ∈ (emitImages fs root sr np imgs).1, ∃ img ∈ imgs, f.imageName = some img.1 := by
  intro imgs
  induction imgs with
  | nil => intro f hf; simp [emitImages] at hf
  | cons i rest ih =>
    intro f hf
    cases h : (emitImage fs root sr np i).2 with
    | some e =>
      simp only [emitImages, h] at hf
      exact ⟨i, by simp, emitImage_imageName fs root sr np i f hf⟩
    | none =>
      simp only [emitImages, h] at hf
      rcases List.mem_append.mp hf with hf2 | hf2
      · exact ⟨i, by simp, emitImage_imageName fs root sr np i f hf2⟩
      · rcases ih f hf2 with ⟨img, hmem, hname⟩
        exact ⟨img, by simp [hmem], hname⟩

theorem emitImages_countP_zero (fs : FS) (root : List String) (sr np : String)
    (p : Fragment → Bool) (name : String)
    (hp : ∀ f, p f = true → f.imageName = some name) :
    ∀ imgs : List (String × List (String × String)),
      (∀ img ∈ imgs, img.1 ≠ name) →
      List.countP p (emitImages fs root sr np imgs).1 = 0 := by
  intro imgs hne
  rw [List.countP_eq_zero]
  intro f hf hpf
  rcases emitImages_mem_imageName fs root sr np imgs f hf with ⟨img, hmem, hname⟩
  have := hp f hpf
  rw [this] at hname
  exact hne img hmem (Option.some_inj.mp hname.symm)

theorem emitImage_countP_zero (fs : FS) (root : List String) (sr np : String)
    (p : Fragment → Bool) (name : String)
    (hp : ∀ f, p f = true → f.imageName = some name)
    (img : String × List (String × String)) (hne : img.1 ≠ name) :
    List.countP p (emitImage fs root sr np img).1 = 0 := by
  rw [List.countP_eq_zero]
  intro f hf hpf
  have h1 := emitImage_imageName fs root sr np img f hf
  have h2 := hp f hpf
  rw [h2] at h1
  exact hne (Option.some_inj.mp h1.symm)

theorem emitImages_countP_pick (fs : FS) (root : List String) (sr np : String)
    (p : Fragment → Bool) :
    ∀ imgs : List (String × List (String × String)),
      imgs.Pairwise (fun a b => a.1 ≠ b.1) →
      (∀ i ∈ imgs, (emitImage fs root sr np i).2 = none) →
      ∀ img ∈ imgs, (∀ f, p f = true → f.imageName = some img.1) →
      List.countP p (emitImages fs root sr np imgs).1 =
        List.countP p (emitImage fs root sr np img).1 := by
  intro imgs
  induction imgs with
  | nil => intro _ _ img h; simp at h
  | cons i rest ih =>
    intro hpw hall img hmem hp
    have hi := hall i (by simp)
    simp only [emitImages, hi]
    rw [List.countP_append]
    rcases List.mem_cons.mp hmem with rfl | hmem2
    · have hzero : List.countP p (emitImages fs root sr np rest).1 = 0 := by
        apply emitImages_countP_zero fs root sr np p img.1 hp
        intro j hj
        have hne := (List.pairwise_cons.mp hpw).1 j hj
        exact fun hh => hne hh.symm
      rw [hzero]
      simp
    · have hzero : List.countP p (emitImage fs root sr np i).1 = 0 := by
        apply emitImage_countP_zero fs root sr np p img.1 hp i
        exact (List.pairwise_cons.mp hpw).1 img hmem2
      rw [hzero,
        ih (List.pairwise_cons.mp hpw).2 (fun j hj => hall j (by simp [hj])) img hmem2 hp]
      simp

theorem emitImages_mem_lift (fs : FS) (root : List String) (sr np : String)
    (imgs : List (String × List (String × String)))
    (hall : ∀ i ∈ imgs, (emitImage fs root sr np i).2 = none)
    (img : String × List (String × String)) (hmem : img ∈ imgs)
    (f : Fragment) (hf : f ∈ (emitImage fs root sr np img).1) :
    f ∈ (emitImages fs root sr np imgs).1 := by
  rw [emitImages_flatten fs root sr np imgs hall]
  exact List.mem_flatten.mpr ⟨(emitImage fs root sr np img).1,
    List.mem_map_of_mem _ hmem, hf⟩

/-! ## Behaviour of `create_config` -/

theorem create_config_only_constants (fs : FS) (root : List String) (sr np : String)
    (wc : Bool) :
    create_config fs root sr np wc true =
      ((if wc then [Fragment.constants] else []), none) := rfl

theorem create_config_structure (fs : FS) (root : List String) (sr np : String)
    (wc : Bool) (hfi : (find_images fs root).2 = none) :
    create_config fs root sr np wc false =
      ((if wc then [Fragment.constants] else []) ++
        (emitImages fs root sr np (imagesOf fs root)).1,
       (emitImages fs root sr np (imagesOf fs root)).2) := by
  simp [create_config, hfi]

theorem create_config_err_find (fs : FS) (root : List String) (sr np : String)
    (wc : Bool) (e : PyError) (hfi : (find_images fs root).2 = some e) :
    create_config fs root sr np wc false =
      ((if wc then [Fragment.constants] else []), some e) := by
  simp [create_config, hfi]

theorem create_config_success_parts (fs : FS) (root : List String) (sr np : String)
    (wc : Bool) (h : (create_config fs root sr np wc false).2 = none) :
    (find_images fs root).2 = none ∧
    (emitImages fs root sr np (imagesOf fs root)).2 = none := by
  cases hfi : (find_images fs root).2 with
  | some e => rw [create_config_err_find fs root sr np wc e hfi] at h; cases h
  | none =>
    refine ⟨rfl, ?_⟩
    rw [create_config_structure fs root sr np wc hfi] at h
    exact h

/-! ## Keys of the aggregated image dict are distinct -/

theorem imagesInsert_keys (name tag mt : String) :
    ∀ imgs, ∀ x ∈ imagesInsert name tag mt imgs, x.1 = name ∨ x.1 ∈ imgs.map Prod.fst := by
  intro imgs
  induction imgs with
  | nil =>
    intro x hx
    rcases List.mem_singleton.mp hx with rfl
    left; rfl
  | cons i rest ih =>
    intro x hx
    obtain ⟨n, tags⟩ := i
    by_cases h : n = name
    · simp only [imagesInsert, if_pos h] at hx
      rcases List.mem_cons.mp hx with rfl | hx2
      · left; exact h
      · right
        simp only [List.map_cons]
        exact List.mem_cons_of_mem _ (List.mem_map_of_mem _ hx2)
    · simp only [imagesInsert, if_neg h] at hx
      rcases List.mem_cons.mp hx with rfl | hx2
      · right
        simp only [List.map_cons]
        exact List.mem_cons_self _ _
      · rcases ih x hx2 with h1 | h1
        · left; exact h1
        · right
          simp only [List.map_cons]
          exact List.mem_cons_of_mem _ h1

theorem imagesInsert_pairwise (name tag mt : String) :
    ∀ imgs, imgs.Pairwise (fun a b => a.1 ≠ b.1) →
      (imagesInsert name tag mt imgs).Pairwise (fun a b => a.1 ≠ b.1) := by
  intro imgs
  induction imgs with
  | nil => intro _; simp [imagesInsert]
  | cons i rest ih =>
    intro hpw
    obtain ⟨n, tags⟩ := i
    rcases List.pairwise_cons.mp hpw with ⟨hhead, hrest⟩
    by_cases h : n = name
    · simp only [imagesInsert, if_pos h]
      exact List.pairwise_cons.mpr ⟨hhead, hrest⟩
    · simp only [imagesInsert, if_neg h]
      refine List.pairwise_cons.mpr ⟨?_, ih hrest⟩
      intro x hx
      rcases imagesInsert_keys name tag mt rest x hx with h1 | h1
      · show n ≠ x.1
        rw [h1]; exact h
      · rcases List.mem_map.mp h1 with ⟨b, hb, hbx⟩
        show n ≠ x.1
        rw [← hbx]
        exact hhead b hb

theorem aggregate_go_pairwise :
    ∀ (l : List (String × String × String)) (acc : List (String × List (String × String))),
      acc.Pairwise (fun a b => a.1 ≠ b.1) →
      (l.foldl (fun imgs t => imagesInsert t.1 t.2.1 t.2.2 imgs) acc).Pairwise
        (fun a b => a.1 ≠ b.1) := by
  intro l
  induction l with
  | nil => intro acc h; exact h
  | cons t rest ih =>
    intro acc h
    exact ih _ (imagesInsert_pairwise _ _ _ acc h)

theorem aggregate_pairwise (l : List (String × String × String)) :
    (aggregate l).Pairwise (fun a b => a.1 ≠ b.1) :=
  aggregate_go_pairwise l [] (by simp)

theorem imagesOf_pairwise (fs : FS) (root : List String) :
    (imagesOf fs root).Pairwise (fun a b => a.1 ≠ b.1) :=
  (List.Perm.pairwise_iff (fun h he => h he.symm)
    (sortByKey_perm (aggregate (find_images fs root).1))).mpr
    (aggregate_pairwise (find_images fs root).1)

/-! ## Slash normalization of the name prefix -/

theorem data_mk (l : List Char) : (String.mk l).data = l := rfl

theorem mk_data (s : String) : String.mk s.data = s := rfl

theorem str_eq_empty_of_data (s : String) (h : s.data = []) : s = "" := by
  have h2 : s = String.mk s.data := rfl
  rw [h] at h2
  rw [h2]

theorem pyStripSlash_data_prefix (s : String) :
    (pyStripSlash s).data <+: s.data.dropWhile (fun c => c == '/') := by
  show ((s.data.dropWhile (fun c => c == '/')).reverse.dropWhile
    (fun c => c == '/')).reverse <+: s.data.dropWhile (fun c => c == '/')
  have h := List.reverse_prefix.mpr
    (List.dropWhile_suffix (l := (s.data.dropWhile (fun c => c == '/')).reverse)
      (fun c => c == '/'))
  rwa [List.reverse_reverse] at h

theorem dropWhile_head_not {p : Char → Bool} :
    ∀ (l : List Char) (x : Char) (t : List Char), l.dropWhile p = x :: t → p x = false := by
  intro l
  induction l with
  | nil => intro x t h; cases h
  | cons a as ih =>
    intro x t h
    rw [List.dropWhile_cons] at h
    by_cases hp : p a = true
    · rw [if_pos hp] at h
      exact ih x t h
    · rw [if_neg hp] at h
      injection h with h1 _
      subst h1
      cases hh : p a
      · rfl
      · exact absurd hh hp

theorem pyStripSlash_head (s : String) (x : Char) (t : List Char)
    (h : (pyStripSlash s).data = x :: t) : (x == '/') = false := by
  have hpre := pyStripSlash_data_prefix s
  rw [h] at hpre
  rcases hpre with ⟨r, hr⟩
  exact dropWhile_head_not s.data x (t ++ r) (by rw [← hr]; simp)

theorem effective_prefix_eq (arg : String) (h : pyStripSlash arg ≠ "") :
    pyLstripSlash (pyStripSlash arg ++ "/") = pyStripSlash arg ++ "/" := by
  cases hcd : (pyStripSlash arg).data with
  | nil => exact absurd (str_eq_empty_of_data _ hcd) h
  | cons x t =>
    have hx := pyStripSlash_head arg x t hcd
    show String.mk (((pyStripSlash arg ++ "/")).data.dropWhile (fun c => c == '/'))
      = pyStripSlash arg ++ "/"
    rw [String.data_append, hcd]
    show String.mk ((x :: (t ++ "/".data)).dropWhile (fun c => c == '/'))
      = pyStripSlash arg ++ "/"
    rw [List.dropWhile_cons, if_neg (by rw [hx]; exact Bool.false_ne_true)]
    have : x :: (t ++ "/".data) = (pyStripSlash arg ++ "/").data := by
      rw [String.data_append, hcd]; rfl
    rw [this, mk_data]

/-! ## The emitter depends on the name prefix only through `lstrip` -/

theorem emitTags_np_congr (fs : FS) (root : List String) (sr : String) {np np2 : String}
    (h : pyLstripSlash np = pyLstripSlash np2) (name : String) :
    ∀ (l : List (String × String)) (seen : List String),
      emitTags fs root sr np name l seen = emitTags fs root sr np2 name l seen := by
  intro l
  induction l with
  | nil => intro seen; rfl
  | cons q rest ih =>
    intro seen
    obtain ⟨tag, mt⟩ := q
    cases hdg : compute_digest fs (root ++ [name, tag, MANIFEST_JSON]) with
    | none => simp [emitTags, hdg]
    | some d =>
      simp only [emitTags, hdg]
      rw [h, ih (d :: seen)]

theorem emitImage_np_congr (fs : FS) (root : List String) (sr : String) {np np2 : String}
    (h : pyLstripSlash np = pyLstripSlash np2)
    (img : String × List (String × String)) :
    emitImage fs root sr np img = emitImage fs root sr np2 img := by
  unfold emitImage
  rw [h, emitTags_np_congr fs root sr h img.1 (sortByKey img.2) []]

theorem emitImages_np_congr (fs : FS) (root : List String) (sr : String) {np np2 : String}
    (h : pyLstripSlash np = pyLstripSlash np2) :
    ∀ imgs : List (String × List (String × String)),
      emitImages fs root sr np imgs = emitImages fs root sr np2 imgs := by
  intro imgs
  induction imgs with
  | nil => rfl
  | cons i rest ih =>
    unfold emitImages
    rw [emitImage_np_congr fs root sr h i, ih]

theorem create_config_np_congr (fs : FS) (root : List String) (sr : String) {np np2 : String}
    (h : pyLstripSlash np = pyLstripSlash np2) (wc oc : Bool) :
    create_config fs root sr np wc oc = create_config fs root sr np2 wc oc := by
  unfold create_config
  rw [emitImages_np_congr fs root sr h (imagesOf fs root)]

/-! ## Extraction of emission order -/

theorem emitTags_tagListNames (fs : FS) (root : List String) (sr np name : String)
    (l : List (String × String)) (seen : List String) :
    tagListNames (emitTags fs root sr np name l seen).1 = [] := by
  rw [tagListNames, List.filterMap_eq_nil_iff]
  intro f hf
  rcases emitTags_shape fs root sr np name l seen f hf with
    ⟨t, m, d, _, _, rfl | rfl⟩ | ⟨t, _, rfl⟩ <;> rfl

theorem emitImage_tagListNames (fs : FS) (root : List String) (sr np : String)
    (img : String × List (String × String))
    (h : (emitImage fs root sr np img).2 = none) :
    tagListNames (emitImage fs root sr np img).1 = [img.1] := by
  rw [emitImage_snd] at h
  rw [emitImage_success_eq fs root sr np img h]
  have h1 := emitTags_tagListNames fs root sr np img.1 (sortByKey img.2) []
  simp [tagListNames, List.filterMap_cons, List.filterMap_append, tagListNameF] at h1 ⊢
  exact h1

theorem emitImages_tagListNames (fs : FS) (root : List String) (sr np : String) :
    ∀ imgs : List (String × List (String × String)),
      (∀ i ∈ imgs, (emitImage fs root sr np i).2 = none) →
      tagListNames (emitImages fs root sr np imgs).1 = imgs.map Prod.fst := by
  intro imgs
  induction imgs with
  | nil => intro _; rfl
  | cons i rest ih =>
    intro hall
    have hi := hall i (by simp)
    simp only [emitImages, hi]
    have h1 := emitImage_tagListNames fs root sr np i hi
    have h2 := ih (fun j hj => hall j (by simp [hj]))
    simp only [tagListNames, List.filterMap_append] at h1 h2 ⊢
    rw [h1, h2]
    rfl

theorem emitTags_tagRouteTags (fs : FS) (root : List String) (sr np name : String) :
    ∀ (l : List (String × String)) (seen : List String),
      (∀ p ∈ l, (compute_digest fs (root ++ [name, p.1, MANIFEST_JSON])).isSome) →
      tagRouteTags name (emitTags fs root sr np name l seen).1 = l.map Prod.fst := by
  intro l
  induction l with
  | nil => intro seen _; rfl
  | cons q rest ih =>
    intro seen hall
    obtain ⟨tag, mt⟩ := q
    have hq := hall (tag, mt) (by simp)
    cases hdg : compute_digest fs (root ++ [name, tag, MANIFEST_JSON]) with
    | none => rw [hdg] at hq; simp at hq
    | some d =>
      simp only [emitTags, hdg]
      have h3 := ih (d :: seen) (fun r hr => hall r (by simp [hr]))
      by_cases hsd : seen.contains d = true
      · rw [if_pos hsd]
        simp only [tagRouteTags, List.filterMap_cons, tagRouteTagF] at h3 ⊢
        simp [h3]
      · rw [if_neg hsd]
        simp only [tagRouteTags, List.filterMap_cons, tagRouteTagF] at h3 ⊢
        simp [h3]

theorem tagRouteTags_zero_of_imageName (name : String) (l : List Fragment)
    (h : ∀ f ∈ l, f.imageName ≠ some name) :
    tagRouteTags name l = [] := by
  rw [tagRouteTags, List.filterMap_eq_nil_iff]
  intro f hf
  cases f with
  | manifestByTag np2 n t m d s2 =>
    have h2 := h _ hf
    have hn : ¬ n = name := by
      intro hh
      exact h2 (by simp [Fragment.imageName, hh])
    simp [tagRouteTagF, hn]
  | constants => rfl
  | tagList _ _ _ => rfl
  | manifestByDigest _ _ _ _ _ _ => rfl
  | digestComment _ _ => rfl
  | blobRoute _ _ _ _ => rfl

theorem emitImage_tagRouteTags (fs : FS) (root : List String) (sr np : String)
    (img : String × List (String × String))
    (h : (emitImage fs root sr np img).2 = none) :
    tagRouteTags img.1 (emitImage fs root sr np img).1 = (sortByKey img.2).map Prod.fst := by
  rw [emitImage_snd] at h
  rw [emitImage_success_eq fs root sr np img h]
  have hall := emitTags_isSome_of_err_none fs root sr np img.1 (sortByKey img.2) [] h
  have h1 := emitTags_tagRouteTags fs root sr np img.1 (sortByKey img.2) [] hall
  simp only [tagRouteTags, List.filterMap_cons, List.filterMap_append, tagRouteTagF] at h1 ⊢
  simp [h1, tagRouteTagF]

/-! ## The blob route of an image -/

theorem emitTags_blob_zero (fs : FS) (root : List String) (sr np name n2 : String)
    (l : List (String × String)) (seen : List String) :
    List.countP (isBlobRouteOf n2) (emitTags fs root sr np name l seen).1 = 0 := by
  rw [List.countP_eq_zero]
  intro f hf
  rcases emitTags_shape fs root sr np name l seen f hf with
    ⟨t, m, d, _, _, rfl | rfl⟩ | ⟨t, _, rfl⟩ <;> simp [isBlobRouteOf]

theorem emitImage_blob_count (fs : FS) (root : List String) (sr np : String)
    (img : String × List (String × String))
    (h : (emitImage fs root sr np img).2 = none) :
    List.countP (isBlobRouteOf img.1) (emitImage fs root sr np img).1 = 1 := by
  rw [emitImage_snd] at h
  rw [emitImage_success_eq fs root sr np img h]
  rw [List.countP_cons, List.countP_append, emitTags_blob_zero]
  have e1 : isBlobRouteOf img.1
      (Fragment.tagList (pyLstripSlash np) img.1 (sortStr (img.2.map Prod.fst))) = false := rfl
  have e2 : isBlobRouteOf img.1
      (Fragment.blobRoute (pyLstripSlash np) sr img.1 (sortStr (img.2.map Prod.fst)))
      = true := by simp [isBlobRouteOf]
  simp [e1, e2]

theorem emitImage_blob_mem (fs : FS) (root : List String) (sr np : String)
    (img : String × List (String × String))
    (h : (emitImage fs root sr np img).2 = none) :
    Fragment.blobRoute (pyLstripSlash np) sr img.1 (sortStr (img.2.map Prod.fst)) ∈
      (emitImage fs root sr np img).1 := by
  rw [emitImage_snd] at h
  rw [emitImage_success_eq fs root sr np img h]
  simp

theorem emitImages_decomp (fs : FS) (root : List String) (sr np : String)
    (imgs : List (String × List (String × String)))
    (hpw : imgs.Pairwise (fun a b => a.1 ≠ b.1))
    (hall : ∀ i ∈ imgs, (emitImage fs root sr np i).2 = none)
    (img : String × List (String × String)) (hmem : img ∈ imgs) :
    ∃ pre post, (emitImages fs root sr np imgs).1 =
        pre ++ (emitImage fs root sr np img).1 ++ post ∧
      ∀ f ∈ post, f.imageName ≠ some img.1 := by
  rcases List.append_of_mem hmem with ⟨s, t, rfl⟩
  rw [emitImages_flatten fs root sr np _ hall]
  refine ⟨((s.map (fun i => (emitImage fs root sr np i).1)).flatten),
    ((t.map (fun i => (emitImage fs root sr np i).1)).flatten), ?_, ?_⟩
  · simp [List.flatten_append, List.append_assoc]
  · intro f hf
    rcases List.mem_flatten.mp hf with ⟨lf, hlf, hflf⟩
    rcases List.mem_map.mp hlf with ⟨j, hj, rfl⟩
    have hname := emitImage_imageName fs root sr np j f hflf
    rw [hname]
    intro hh
    have hji : img.1 = j.1 := (Option.some_inj.mp hh).symm
    have hpw2 := (List.pairwise_append.mp hpw).2.1
    have := (List.pairwise_cons.mp hpw2).1 j hj
    exact this hji

theorem emitImages_tagRouteTags_pick (fs : FS) (root : List String) (sr np : String) :
    ∀ imgs : List (String × List (String × String)),
      imgs.Pairwise (fun a b => a.1 ≠ b.1) →
      (∀ i ∈ imgs, (emitImage fs root sr np i).2 = none) →
      ∀ img ∈ imgs,
      tagRouteTags img.1 (emitImages fs root sr np imgs).1 =
        tagRouteTags img.1 (emitImage fs root sr np img).1 := by
  intro imgs
  induction imgs with
  | nil => intro _ _ img h; simp at h
  | cons i rest ih =>
    intro hpw hall img hmem
    have hi := hall i (by simp)
    simp only [emitImages, hi]
    rw [show tagRouteTags img.1 ((emitImage fs root sr np i).1 ++
        (emitImages fs root sr np rest).1) =
      tagRouteTags img.1 (emitImage fs root sr np i).1 ++
        tagRouteTags img.1 (emitImages fs root sr np rest).1 from
      List.filterMap_append _ _ _]
    rcases List.mem_cons.mp hmem with rfl | hmem2
    · have hzero : tagRouteTags img.1 (emitImages fs root sr np rest).1 = [] := by
        apply tagRouteTags_zero_of_imageName
        intro f hf
        rcases emitImages_mem_imageName fs root sr np rest f hf with ⟨j, hj, hname⟩
        rw [hname]
        intro hh
        exact (List.pairwise_cons.mp hpw).1 j hj (Option.some_inj.mp hh).symm
      rw [hzero]
      simp
    · have hzero : tagRouteTags img.1 (emitImage fs root sr np i).1 = [] := by
        apply tagRouteTags_zero_of_imageName
        intro f hf
        have hname := emitImage_imageName fs root sr np i f hf
        rw [hname]
        intro hh
        exact (List.pairwise_cons.mp hpw).1 img hmem2 (Option.some_inj.mp hh)
      rw [hzero,
        ih (List.pairwise_cons.mp hpw).2 (fun j hj => hall j (by simp [hj])) img hmem2]
      simp

/-! ## Provenance of manifest routes: their digest is the manifest digest -/

theorem emitImage_manifest_digest (fs : FS) (root : List String) (sr np : String)
    (img : String × List (String × String)) :
    ∀ f ∈ (emitImage fs root sr np img).1, ∀ np2 n t m d s2,
      (f = Fragment.manifestByTag np2 n t m d s2 ∨
       f = Fragment.manifestByDigest np2 n t m d s2) →
      compute_digest fs (root ++ [n, t, MANIFEST_JSON]) = some d := by
  intro f hf np2 n t m d s2 hor
  have hcases : f = Fragment.tagList (pyLstripSlash np) img.1 (sortStr (img.2.map Prod.fst)) ∨
      f ∈ (emitTags fs root sr np img.1 (sortByKey img.2) []).1 ∨
      f = Fragment.blobRoute (pyLstripSlash np) sr img.1 (sortStr (img.2.map Prod.fst)) := by
    cases herr : (emitTags fs root sr np img.1 (sortByKey img.2) []).2 with
    | none =>
      rw [emitImage_success_eq fs root sr np img herr] at hf
      rcases List.mem_cons.mp hf with rfl | hf2
      · left; rfl
      rcases List.mem_append.mp hf2 with hf3 | hf3
      · right; left; exact hf3
      · right; right; exact List.mem_singleton.mp hf3
    | some e =>
      rw [emitImage_err_eq fs root sr np img e herr] at hf
      rcases List.mem_cons.mp hf with rfl | hf2
      · left; rfl
      · right; left; exact hf2
  rcases hcases with rfl | hf2 | rfl
  · rcases hor with h | h <;> simp at h
  · rcases emitTags_shape fs root sr np img.1 (sortByKey img.2) [] f hf2 with
      ⟨tag, mt, d2, hmem, hdg, hAB⟩ | ⟨tag, _, rfl⟩
    · rcases hAB with rfl | rfl
      · rcases hor with h | h
        · simp only [Fragment.manifestByTag.injEq] at h
          obtain ⟨rfl, rfl, rfl, rfl, rfl, rfl⟩ := h
          exact hdg
        · simp at h
      · rcases hor with h | h
        · simp at h
        · simp only [Fragment.manifestByDigest.injEq] at h
          obtain ⟨rfl, rfl, rfl, rfl, rfl, rfl⟩ := h
          exact hdg
    · rcases hor with h | h <;> simp at h
  · rcases hor with h | h <;> simp at h

theorem emitImages_manifest_digest (fs : FS) (root : List String) (sr np : String) :
    ∀ imgs : List (String × List (String × String)),
      ∀ f ∈ (emitImages fs root sr np imgs).1, ∀ np2 n t m d s2,
        (f = Fragment.manifestByTag np2 n t m d s2 ∨
         f = Fragment.manifestByDigest np2 n t m d s2) →
        compute_digest fs (root ++ [n, t, MANIFEST_JSON]) = some d := by
  intro imgs
  induction imgs with
  | nil => intro f hf; simp [emitImages] at hf
  | cons i rest ih =>
    intro f hf np2 n t m d s2 hor
    cases h : (emitImage fs root sr np i).2 with
    | some e =>
      simp only [emitImages, h] at hf
      exact emitImage_manifest_digest fs root sr np i f hf np2 n t m d s2 hor
    | none =>
      simp only [emitImages, h] at hf
      rcases List.mem_append.mp hf with hf2 | hf2
      · exact emitImage_manifest_digest fs root sr np i f hf2 np2 n t m d s2 hor
      · exact ih f hf2 np2 n t m d s2 hor

theorem create_config_manifest_digest (fs : FS) (root : List String) (sr np : String)
    (wc oc : Bool) :
    ∀ f ∈ (create_config fs root sr np wc oc).1, ∀ np2 n t m d s2,
      (f = Fragment.manifestByTag np2 n t m d s2 ∨
       f = Fragment.manifestByDigest np2 n t m d s2) →
      compute_digest fs (root ++ [n, t, MANIFEST_JSON]) = some d := by
  intro f hf np2 n t m d s2 hor
  have hhead : ∀ g ∈ (if wc then [Fragment.constants] else []), g = Fragment.constants := by
    intro g hg
    cases wc
    · simp at hg
    · simpa using hg
  cases oc with
  | true =>
    rw [create_config_only_constants] at hf
    have := hhead f hf
    subst this
    rcases hor with h | h <;> simp at h
  | false =>
    cases hfi : (find_images fs root).2 with
    | some e =>
      rw [create_config_err_find fs root sr np wc e hfi] at hf
      have := hhead f hf
      subst this
      rcases hor with h | h <;> simp at h
    | none =>
      rw [create_config_structure fs root sr np wc hfi] at hf
      rcases List.mem_append.mp hf with hf2 | hf2
      · have := hhead f hf2
        subst this
        rcases hor with h | h <;> simp at h
      · exact emitImages_manifest_digest fs root sr np (imagesOf fs root) f hf2 np2 n t m d s2 hor

/-! ## Discovery: characterization of `find_images` -/

theorem scanData_obj_eq (kvs : List (String × PyJson)) (h : pyTruthy (PyJson.obj kvs) = true) :
    scanData (PyJson.obj kvs) =
      (if !(match objLookup kvs "schemaVersion" with
            | some (PyJson.num n) => n == 2
            | _ => false) then ScanStep.skip
       else
         match objLookup kvs "mediaType" with
         | some (PyJson.str mt) => if mt ∈ mediaTypes then ScanStep.found mt else ScanStep.skip
         | _ => ScanStep.skip) := by
  unfold scanData
  rw [if_neg (by rw [h]; exact Bool.false_ne_true)]

theorem scanData_no_crash (data : PyJson)
    (h : pyTruthy data = true → ∃ kvs, data = PyJson.obj kvs) :
    scanData data ≠ ScanStep.crash := by
  intro hcrash
  by_cases ht : pyTruthy data = true
  · rcases h ht with ⟨kvs, rfl⟩
    rw [scanData_obj_eq kvs ht] at hcrash
    by_cases h4 : (!(match objLookup kvs "schemaVersion" with
        | some (PyJson.num n) => n == 2
        | _ => false)) = true
    · rw [if_pos h4] at hcrash; cases hcrash
    · rw [if_neg h4] at hcrash
      cases hlk : objLookup kvs "mediaType" with
      | none => rw [hlk] at hcrash; cases hcrash
      | some v =>
        rw [hlk] at hcrash
        cases v with
        | str mt =>
          have hcrash3 : (if mt ∈ mediaTypes then ScanStep.found mt else ScanStep.skip)
              = ScanStep.crash := hcrash
          by_cases h5 : mt ∈ mediaTypes
          · rw [if_pos h5] at hcrash3; cases hcrash3
          · rw [if_neg h5] at hcrash3; cases hcrash3
        | null => cases hcrash
        | bool _ => cases hcrash
        | num _ => cases hcrash
        | arr _ => cases hcrash
        | obj _ => cases hcrash
  · have htf : pyTruthy data = false := by
      revert ht; cases pyTruthy data <;> simp
    unfold scanData at hcrash
    rw [if_pos (by rw [htf]; rfl)] at hcrash
    cases hcrash

theorem scanData_found_iff (data : PyJson) (mt : String) :
    scanData data = ScanStep.found mt ↔
      ∃ kvs, data = PyJson.obj kvs ∧ pyTruthy (PyJson.obj kvs) = true ∧
        objLookup kvs "schemaVersion" = some (PyJson.num 2) ∧
        objLookup kvs "mediaType" = some (PyJson.str mt) ∧ mt ∈ mediaTypes := by
  constructor
  · intro hfound
    by_cases ht : pyTruthy data = true
    · cases data with
      | obj kvs =>
        refine ⟨kvs, rfl, ht, ?_⟩
        rw [scanData_obj_eq kvs ht] at hfound
        by_cases h4 : (!(match objLookup kvs "schemaVersion" with
            | some (PyJson.num n) => n == 2
            | _ => false)) = true
        · rw [if_pos h4] at hfound; cases hfound
        · rw [if_neg h4] at hfound
          have h4t : (match objLookup kvs "schemaVersion" with
              | some (PyJson.num n) => n == 2
              | _ => false) = true := by
            revert h4
            cases (match objLookup kvs "schemaVersion" with
              | some (PyJson.num n) => n == 2
              | _ => false) <;> simp
          have hsv : objLookup kvs "schemaVersion" = some (PyJson.num 2) := by
            cases hlk : objLookup kvs "schemaVersion" with
            | none => rw [hlk] at h4t; cases h4t
            | some v =>
              rw [hlk] at h4t
              cases v with
              | num n =>
                have hn : n = 2 := by
                  simpa only [beq_iff_eq] using h4t
                rw [hn]
              | null => cases h4t
              | bool _ => cases h4t
              | str _ => cases h4t
              | arr _ => cases h4t
              | obj _ => cases h4t
          refine ⟨hsv, ?_⟩
          cases hlk2 : objLookup kvs "mediaType" with
          | none => rw [hlk2] at hfound; cases hfound
          | some v =>
            rw [hlk2] at hfound
            cases v with
            | str mt2 =>
              have hfound3 : (if mt2 ∈ mediaTypes then ScanStep.found mt2 else ScanStep.skip)
                  = ScanStep.found mt := hfound
              by_cases h5 : mt2 ∈ mediaTypes
              · rw [if_pos h5] at hfound3
                injection hfound3 with hmt
                subst hmt
                exact ⟨rfl, h5⟩
              · rw [if_neg h5] at hfound3; cases hfound3
            | null => cases hfound
            | bool _ => cases hfound
            | num _ => cases hfound
            | arr _ => cases hfound
            | obj _ => cases hfound
      | null => cases ht
      | bool b =>
        have : scanData (PyJson.bool b) = ScanStep.crash := by
          unfold scanData
          rw [if_neg (by rw [ht]; exact Bool.false_ne_true)]
        rw [this] at hfound
        cases hfound
      | num n =>
        have : scanData (PyJson.num n) = ScanStep.crash := by
          unfold scanData
          rw [if_neg (by rw [ht]; exact Bool.false_ne_true)]
        rw [this] at hfound
        cases hfound
      | str s =>
        have : scanData (PyJson.str s) = ScanStep.crash := by
          unfold scanData
          rw [if_neg (by rw [ht]; exact Bool.false_ne_true)]
        rw [this] at hfound
        cases hfound
      | arr xs =>
        have : scanData (PyJson.arr xs) = ScanStep.crash := by
          unfold scanData
          rw [if_neg (by rw [ht]; exact Bool.false_ne_true)]
        rw [this] at hfound
        cases hfound
    · have htf : pyTruthy data = false := by
        revert ht; cases pyTruthy data <;> simp
      unfold scanData at hfound
      rw [if_pos (by rw [htf]; rfl)] at hfound
      cases hfound
  · rintro ⟨kvs, rfl, htr, hsv, hmt, hmem⟩
    rw [scanData_obj_eq kvs htr]
    rw [show (match objLookup kvs "schemaVersion" with
        | some (PyJson.num n) => n == 2
        | _ => false) = true by rw [hsv]; simp]
    rw [hmt]
    simp [hmem]

theorem scanTag_no_crash (fs : FS) (root : List String)
    (hobj : ∀ p j, fs.parse p = some j → pyTruthy j = true → ∃ kvs, j = PyJson.obj kvs)
    (name tag : String) : scanTag fs root name tag ≠ ScanStep.crash := by
  intro hcrash
  unfold scanTag at hcrash
  by_cases h1 : (!(fs.isDir (root ++ [name, tag]))) = true
  · rw [if_pos h1] at hcrash; cases hcrash
  · rw [if_neg h1] at hcrash
    by_cases h2 : (!(fs.isFile (root ++ [name, tag, MANIFEST_JSON]))) = true
    · rw [if_pos h2] at hcrash; cases hcrash
    · rw [if_neg h2] at hcrash
      cases hparse : fs.parse (root ++ [name, tag, MANIFEST_JSON]) with
      | none => rw [hparse] at hcrash; cases hcrash
      | some data =>
        rw [hparse] at hcrash
        have hcrash2 : scanData data = ScanStep.crash := hcrash
        exact scanData_no_crash data (hobj _ data hparse) hcrash2

theorem scanTag_found_iff (fs : FS) (root : List String) (name tag mt : String) :
    scanTag fs root name tag = ScanStep.found mt ↔
      (fs.isDir (root ++ [name, tag]) = true ∧
       fs.isFile (root ++ [name, tag, MANIFEST_JSON]) = true ∧
       ∃ kvs, fs.parse (root ++ [name, tag, MANIFEST_JSON]) = some (PyJson.obj kvs) ∧
         pyTruthy (PyJson.obj kvs) = true ∧
         objLookup kvs "schemaVersion" = some (PyJson.num 2) ∧
         objLookup kvs "mediaType" = some (PyJson.str mt) ∧ mt ∈ mediaTypes) := by
  constructor
  · intro hfound
    unfold scanTag at hfound
    by_cases h1 : (!(fs.isDir (root ++ [name, tag]))) = true
    · rw [if_pos h1] at hfound; cases hfound
    · rw [if_neg h1] at hfound
      have h1t : fs.isDir (root ++ [name, tag]) = true := by
        revert h1; cases fs.isDir (root ++ [name, tag]) <;> simp
      by_cases h2 : (!(fs.isFile (root ++ [name, tag, MANIFEST_JSON]))) = true
      · rw [if_pos h2] at hfound; cases hfound
      · rw [if_neg h2] at hfound
        have h2t : fs.isFile (root ++ [name, tag, MANIFEST_JSON]) = true := by
          revert h2; cases fs.isFile (root ++ [name, tag, MANIFEST_JSON]) <;> simp
        cases hparse : fs.parse (root ++ [name, tag, MANIFEST_JSON]) with
        | none => rw [hparse] at hfound; cases hfound
        | some data =>
          rw [hparse] at hfound
          have hfound2 : scanData data = ScanStep.found mt := hfound
          rcases (scanData_found_iff data mt).mp hfound2 with ⟨kvs, rfl, hrest⟩
          exact ⟨h1t, h2t, kvs, rfl, hrest⟩
  · rintro ⟨h1, h2, kvs, hp, hrest⟩
    unfold scanTag
    rw [if_neg (by rw [h1]; exact Bool.false_ne_true),
      if_neg (by rw [h2]; exact Bool.false_ne_true), hp]
    exact (scanData_found_iff (PyJson.obj kvs) mt).mpr ⟨kvs, rfl, hrest⟩

theorem scanTagsLoop_no_crash (fs : FS) (root : List String) (name : String)
    (hnc : ∀ t, scanTag fs root name t ≠ ScanStep.crash) :
    ∀ tags, (scanTagsLoop fs root name tags).2 = none := by
  intro tags
  induction tags with
  | nil => rfl
  | cons t rest ih =>
    cases hstep : scanTag fs root name t with
    | skip => simp only [scanTagsLoop, hstep]; exact ih
    | crash => exact absurd hstep (hnc t)
    | found mt => simp only [scanTagsLoop, hstep]; exact ih

theorem scanTagsLoop_mem (fs : FS) (root : List String) (name : String)
    (hnc : ∀ t, scanTag fs root name t ≠ ScanStep.crash) (n2 t2 mt2 : String) :
    ∀ tags, ((n2, t2, mt2) ∈ (scanTagsLoop fs root name tags).1 ↔
      (n2 = name ∧ t2 ∈ tags ∧ scanTag fs root name t2 = ScanStep.found mt2)) := by
  intro tags
  induction tags with
  | nil => simp [scanTagsLoop]
  | cons t rest ih =>
    cases hstep : scanTag fs root name t with
    | crash => exact absurd hstep (hnc t)
    | skip =>
      simp only [scanTagsLoop, hstep]
      rw [ih]
      constructor
      · rintro ⟨rfl, hm, hf⟩
        exact ⟨rfl, List.mem_cons_of_mem _ hm, hf⟩
      · rintro ⟨rfl, hm, hf⟩
        rcases List.mem_cons.mp hm with rfl | hm2
        · rw [hstep] at hf; cases hf
        · exact ⟨rfl, hm2, hf⟩
    | found mt0 =>
      simp only [scanTagsLoop, hstep]
      constructor
      · intro hmem
        rcases List.mem_cons.mp hmem with heq | hmem2
        · obtain ⟨rfl, rfl, rfl⟩ := Prod.mk.injEq .. ▸ heq
          exact ⟨rfl, List.mem_cons_self _ _, hstep⟩
        · rcases ih.mp hmem2 with ⟨rfl, hm, hf⟩
          exact ⟨rfl, List.mem_cons_of_mem _ hm, hf⟩
      · rintro ⟨rfl, hm, hf⟩
        rcases List.mem_cons.mp hm with rfl | hm2
        · rw [hstep] at hf
          injection hf with hmt
          subst hmt
          exact List.mem_cons_self _ _
        · exact List.mem_cons_of_mem _ (ih.mpr ⟨rfl, hm2, hf⟩)

theorem scanNamesLoop_no_crash (fs : FS) (root : List String)
    (hnc : ∀ nm t, scanTag fs root nm t ≠ ScanStep.crash) :
    ∀ names, (scanNamesLoop fs root names).2 = none := by
  intro names
  induction names with
  | nil => rfl
  | cons nm rest ih =>
    by_cases hd : fs.isDir (root ++ [nm]) = true
    · have h1 := scanTagsLoop_no_crash fs root nm (hnc nm) (fs.listdir (root ++ [nm]))
      simp only [scanNamesLoop, hd, if_true, h1]
      exact ih
    · simp only [scanNamesLoop, if_neg hd]
      exact ih

theorem scanNamesLoop_mem (fs : FS) (root : List String)
    (hnc : ∀ nm t, scanTag fs root nm t ≠ ScanStep.crash) (n2 t2 mt2 : String) :
    ∀ names, ((n2, t2, mt2) ∈ (scanNamesLoop fs root names).1 ↔
      (n2 ∈ names ∧ fs.isDir (root ++ [n2]) = true ∧
        t2 ∈ fs.listdir (root ++ [n2]) ∧
        scanTag fs root n2 t2 = ScanStep.found mt2)) := by
  intro names
  induction names with
  | nil => simp [scanNamesLoop]
  | cons nm rest ih =>
    by_cases hd : fs.isDir (root ++ [nm]) = true
    · have h1 := scanTagsLoop_no_crash fs root nm (hnc nm) (fs.listdir (root ++ [nm]))
      simp only [scanNamesLoop, hd, if_true, h1]
      rw [List.mem_append, ih, scanTagsLoop_mem fs root nm (hnc nm) n2 t2 mt2]
      constructor
      · rintro (⟨rfl, hm, hf⟩ | ⟨hm, hdir, hl, hf⟩)
        · exact ⟨List.mem_cons_self _ _, hd, hm, hf⟩
        · exact ⟨List.mem_cons_of_mem _ hm, hdir, hl, hf⟩
      · rintro ⟨hm, hdir, hl, hf⟩
        rcases List.mem_cons.mp hm with rfl | hm2
        · exact Or.inl ⟨rfl, hl, hf⟩
        · exact Or.inr ⟨hm2, hdir, hl, hf⟩
    · simp only [scanNamesLoop, if_neg hd]
      rw [ih]
      constructor
      · rintro ⟨hm, hdir, hl, hf⟩
        exact ⟨List.mem_cons_of_mem _ hm, hdir, hl, hf⟩
      · rintro ⟨hm, hdir, hl, hf⟩
        rcases List.mem_cons.mp hm with rfl | hm2
        · exact absurd hdir hd
        · exact ⟨hm2, hdir, hl, hf⟩

theorem find_images_ok (fs : FS) (root : List String)
    (hobj : ∀ p j, fs.parse p = some j → pyTruthy j = true → ∃ kvs, j = PyJson.obj kvs) :
    (find_images fs root).2 = none ∧
    ∀ n t m, ((n, t, m) ∈ (find_images fs root).1 ↔ validTriple fs root n t m) := by
  have hnc : ∀ nm t, scanTag fs root nm t ≠ ScanStep.crash :=
    fun nm t => scanTag_no_crash fs root hobj nm t
  constructor
  · exact scanNamesLoop_no_crash fs root hnc (fs.listdir root)
  · intro n t m
    rw [show (find_images fs root).1 = (scanNamesLoop fs root (fs.listdir root)).1 from rfl]
    rw [scanNamesLoop_mem fs root hnc n t m (fs.listdir root)]
    unfold validTriple
    rw [scanTag_found_iff]

/-! ## Lifting facts to the whole `create_config` output -/

theorem emitImages_npfxOf (fs : FS) (root : List String) (sr np : String) :
    ∀ imgs, ∀ f ∈ (emitImages fs root sr np imgs).1,
      f.npfxOf = none ∨ f.npfxOf = some (pyLstripSlash np) := by
  intro imgs
  induction imgs with
  | nil => intro f hf; simp [emitImages] at hf
  | cons i rest ih =>
    intro f hf
    cases h : (emitImage fs root sr np i).2 with
    | some e =>
      simp only [emitImages, h] at hf
      exact emitImage_npfxOf fs root sr np i f hf
    | none =>
      simp only [emitImages, h] at hf
      rcases List.mem_append.mp hf with hf2 | hf2
      · exact emitImage_npfxOf fs root sr np i f hf2
      · exact ih f hf2

theorem create_config_npfxOf (fs : FS) (root : List String) (sr np : String) (wc oc : Bool) :
    ∀ f ∈ (create_config fs root sr np wc oc).1,
      f.npfxOf = none ∨ f.npfxOf = some (pyLstripSlash np) := by
  intro f hf
  have hhead : ∀ g ∈ (if wc then [Fragment.constants] else []), g = Fragment.constants := by
    intro g hg
    cases wc
    · simp at hg
    · simpa using hg
  cases oc with
  | true =>
    rw [create_config_only_constants] at hf
    rw [hhead f hf]
    left; rfl
  | false =>
    cases hfi : (find_images fs root).2 with
    | some e =>
      rw [create_config_err_find fs root sr np wc e hfi] at hf
      rw [hhead f hf]
      left; rfl
    | none =>
      rw [create_config_structure fs root sr np wc hfi] at hf
      rcases List.mem_append.mp hf with hf2 | hf2
      · rw [hhead f hf2]; left; rfl
      · exact emitImages_npfxOf fs root sr np (imagesOf fs root) f hf2

theorem routePath_shape (f : Fragment) (q nm : String)
    (hq : f.npfxOf = some q) (hn : f.imageName = some nm) :
    ∃ rest, f.routePath = some ("/v2/" ++ q ++ (nm ++ rest)) := by
  cases f with
  | constants => cases hq
  | tagList q2 n2 tags =>
    refine ⟨"/tags/list", ?_⟩
    injection hq with hq2
    injection hn with hn2
    subst hq2; subst hn2
    simp [Fragment.routePath, String.append_assoc]
  | manifestByTag q2 n2 t m d s2 =>
    refine ⟨"/manifests/" ++ t, ?_⟩
    injection hq with hq2
    injection hn with hn2
    subst hq2; subst hn2
    simp [Fragment.routePath, String.append_assoc]
  | manifestByDigest q2 n2 t m d s2 =>
    refine ⟨"/manifests/sha256:" ++ d, ?_⟩
    injection hq with hq2
    injection hn with hn2
    subst hq2; subst hn2
    simp [Fragment.routePath, String.append_assoc]
  | digestComment n2 t => cases hq
  | blobRoute q2 s2 n2 tags =>
    refine ⟨"/blobs/sha256:([a-f0-9]\x7b64\x7d)", ?_⟩
    injection hq with hq2
    injection hn with hn2
    subst hq2; subst hn2
    simp [Fragment.routePath, String.append_assoc]

theorem create_config_mem_lift (fs : FS) (root : List String) (sr np : String) (wc : Bool)
    (hsucc : (create_config fs root sr np wc false).2 = none)
    (img : String × List (String × String)) (hmem : img ∈ imagesOf fs root)
    (f : Fragment) (hf : f ∈ (emitImage fs root sr np img).1) :
    f ∈ (create_config fs root sr np wc false).1 := by
  rcases create_config_success_parts fs root sr np wc hsucc with ⟨hfi, hemit⟩
  rw [create_config_structure fs root sr np wc hfi]
  apply List.mem_append.mpr
  right
  exact emitImages_mem_lift fs root sr np (imagesOf fs root)
    (emitImages_success_all fs root sr np (imagesOf fs root) hemit) img hmem f hf

theorem emitImage_digest_companion (fs : FS) (root : List String) (sr np : String)
    (img : String × List (String × String)) (np2 n t m d s2 : String)
    (h : Fragment.manifestByDigest np2 n t m d s2 ∈ (emitImage fs root sr np img).1) :
    Fragment.manifestByTag np2 n t m d s2 ∈ (emitImage fs root sr np img).1 := by
  cases herr : (emitTags fs root sr np img.1 (sortByKey img.2) []).2 with
  | none =>
    rw [emitImage_success_eq fs root sr np img herr] at h ⊢
    rcases List.mem_cons.mp h with heq | h2
    · cases heq
    rcases List.mem_append.mp h2 with h3 | h3
    · exact List.mem_cons_of_mem _ (List.mem_append.mpr (Or.inl
        (emitTags_digest_companion fs root sr np img.1 (sortByKey img.2) [] np2 n t m d s2 h3)))
    · rcases List.mem_singleton.mp h3 with heq
      cases heq
  | some e =>
    rw [emitImage_err_eq fs root sr np img e herr] at h ⊢
    rcases List.mem_cons.mp h with heq | h2
    · cases heq
    · exact List.mem_cons_of_mem _
        (emitTags_digest_companion fs root sr np img.1 (sortByKey img.2) [] np2 n t m d s2 h2)

theorem emitImages_digest_companion (fs : FS) (root : List String) (sr np : String) :
    ∀ imgs (np2 n t m d s2 : String),
      Fragment.manifestByDigest np2 n t m d s2 ∈ (emitImages fs root sr np imgs).1 →
      Fragment.manifestByTag np2 n t m d s2 ∈ (emitImages fs root sr np imgs).1 := by
  intro imgs
  induction imgs with
  | nil => intro np2 n t m d s2 h; simp [emitImages] at h
  | cons i rest ih =>
    intro np2 n t m d s2 h
    cases he : (emitImage fs root sr np i).2 with
    | some e =>
      simp only [emitImages, he] at h ⊢
      exact emitImage_digest_companion fs root sr np i np2 n t m d s2 h
    | none =>
      simp only [emitImages, he] at h ⊢
      rcases List.mem_append.mp h with h2 | h2
      · exact List.mem_append.mpr (Or.inl
          (emitImage_digest_companion fs root sr np i np2 n t m d s2 h2))
      · exact List.mem_append.mpr (Or.inr (ih np2 n t m d s2 h2))

theorem create_config_digest_companion (fs : FS) (root : List String) (sr np : String)
    (wc oc : Bool) (np2 n t m d s2 : String)
    (h : Fragment.manifestByDigest np2 n t m d s2 ∈ (create_config fs root sr np wc oc).1) :
    Fragment.manifestByTag np2 n t m d s2 ∈ (create_config fs root sr np wc oc).1 := by
  have hhead : ∀ g ∈ (if wc then [Fragment.constants] else []), g = Fragment.constants := by
    intro g hg
    cases wc
    · simp at hg
    · simpa using hg
  cases oc with
  | true =>
    rw [create_config_only_constants] at h
    cases hhead _ h
  | false =>
    cases hfi : (find_images fs root).2 with
    | some e =>
      rw [create_config_err_find fs root sr np wc e hfi] at h
      cases hhead _ h
    | none =>
      rw [create_config_structure fs root sr np wc hfi] at h ⊢
      rcases List.mem_append.mp h with h2 | h2
      · cases hhead _ h2
      · exact List.mem_append.mpr (Or.inr
          (emitImages_digest_companion fs root sr np (imagesOf fs root) np2 n t m d s2 h2))

theorem emitImage_digest_count (fs : FS) (root : List String) (sr np : String)
    (img : String × List (String × String))
    (h : (emitImage fs root sr np img).2 = none) (d : String) :
    List.countP (isDigestRouteOf img.1 d) (emitImage fs root sr np img).1 =
      if ∃ p ∈ sortByKey img.2,
          compute_digest fs (root ++ [img.1, p.1, MANIFEST_JSON]) = some d
        then 1 else 0 := by
  rw [emitImage_snd] at h
  have hall := emitTags_isSome_of_err_none fs root sr np img.1 (sortByKey img.2) [] h
  rw [emitImage_success_eq fs root sr np img h]
  rw [List.countP_cons, List.countP_append, List.countP_cons]
  have e1 : isDigestRouteOf img.1 d
      (Fragment.tagList (pyLstripSlash np) img.1 (sortStr (img.2.map Prod.fst))) = false := rfl
  have e2 : isDigestRouteOf img.1 d
      (Fragment.blobRoute (pyLstripSlash np) sr img.1 (sortStr (img.2.map Prod.fst)))
      = false := rfl
  have hcount := emitTags_digestRoute_count fs root sr np img.1 (sortByKey img.2) [] hall d
  simp only [List.not_mem_nil, if_false] at hcount
  rw [e1, e2, hcount]
  simp

theorem emitImage_tagRoute_count2 (fs : FS) (root : List String) (sr np : String)
    (img : String × List (String × String))
    (h : (emitImage fs root sr np img).2 = none) :
    List.countP (isTagRouteOf img.1) (emitImage fs root sr np img).1 = img.2.length := by
  rw [emitImage_snd] at h
  have hall := emitTags_isSome_of_err_none fs root sr np img.1 (sortByKey img.2) [] h
  rw [emitImage_success_eq fs root sr np img h]
  rw [List.countP_cons, List.countP_append, List.countP_cons]
  have e1 : isTagRouteOf img.1
      (Fragment.tagList (pyLstripSlash np) img.1 (sortStr (img.2.map Prod.fst))) = false := rfl
  have e2 : isTagRouteOf img.1
      (Fragment.blobRoute (pyLstripSlash np) sr img.1 (sortStr (img.2.map Prod.fst)))
      = false := rfl
  rw [e1, e2, emitTags_tagRoute_count fs root sr np img.1 (sortByKey img.2) [] hall]
  have hlen : (sortByKey img.2).length = img.2.length :=
    (sortByKey_perm img.2).length_eq
  simp [hlen]

theorem create_config_ioError (fs : FS) (root : List String) (sr np : String) (wc : Bool)
    (hfi : (find_images fs root).2 = none)
    (name tag mt : String) (tags : List (String × String))
    (himg : (name, tags) ∈ imagesOf fs root) (htag : (tag, mt) ∈ tags)
    (hgone : fs.fileBytes (root ++ [name, tag, MANIFEST_JSON]) = none) :
    (create_config fs root sr np wc false).2 = some PyError.ioError := by
  have hdg : compute_digest fs (root ++ [name, tag, MANIFEST_JSON]) = none := by
    unfold compute_digest
    rw [hgone]
  have htag2 : (tag, mt) ∈ sortByKey tags := (sortByKey_perm tags).mem_iff.mpr htag
  have hemit : (emitTags fs root sr np name (sortByKey tags) []).2 = some PyError.ioError :=
    emitTags_err_ioError fs root sr np name (sortByKey tags) [] ⟨(tag, mt), htag2, hdg⟩
  have himgerr : (emitImage fs root sr np (name, tags)).2 = some PyError.ioError := by
    rw [emitImage_snd]
    exact hemit
  have hfail := emitImages_fail fs root sr np (imagesOf fs root) (name, tags) himg
    (by rw [himgerr]; intro hh; cases hh)
  rcases emitImages_err_shape fs root sr np (imagesOf fs root) with hsh | hsh
  · exact absurd hsh hfail
  · rw [create_config_structure fs root sr np wc hfi]
    exact hsh

theorem create_config_constants_relation (fs : FS) (root : List String) (sr np : String) :
    create_config fs root sr np true false =
      (Fragment.constants :: (create_config fs root sr np false false).1,
       (create_config fs root sr np false false).2) := by
  cases hfi : (find_images fs root).2 with
  | some e =>
    rw [create_config_err_find fs root sr np true e hfi,
      create_config_err_find fs root sr np false e hfi]
    simp
  | none =>
    rw [create_config_structure fs root sr np true hfi,
      create_config_structure fs root sr np false hfi]
    simp

theorem constants_not_mem_omit (fs : FS) (root : List String) (sr np : String) (oc : Bool) :
    Fragment.constants ∉ (create_config fs root sr np false oc).1 := by
  intro h
  cases oc with
  | true =>
    rw [create_config_only_constants] at h
    simp at h
  | false =>
    cases hfi : (find_images fs root).2 with
    | some e =>
      rw [create_config_err_find fs root sr np false e hfi] at h
      simp at h
    | none =>
      rw [create_config_structure fs root sr np false hfi] at h
      simp only [if_neg (by simp : ¬ False), List.nil_append] at h
      rcases emitImages_mem_imageName fs root sr np (imagesOf fs root) _ h with ⟨j, _, hname⟩
      cases hname

/-! ## The claims -/

/-- C5: `compute_digest` returns the 64-character lowercase hexadecimal
SHA-256 digest of the file's raw byte content; the file is read in chunks
of at most 4096 bytes whose concatenation is exactly the content (no
whole-file buffering is assumed by the hash), and the digest is
deterministic: any filesystem and path holding byte-identical content
yields the identical digest string. -/
theorem c5_compute_digest (fs : FS) (path : List String) (content : List Nat)
    (h : fs.fileBytes path = some content) :
    compute_digest fs path = some (sha256hex content) ∧
    absorbChunks (readChunks content) = content ∧
    (∀ ch ∈ readChunks content, ch.length ≤ 4096) ∧
    (sha256hex content).length = 64 ∧
    (∀ c ∈ (sha256hex content).data, c ∈ hexDigits) ∧
    (∀ (fs2 : FS) (path2 : List String), fs2.fileBytes path2 = some content →
      compute_digest fs2 path2 = compute_digest fs path) := by
  have habs := absorbChunks_readChunks content
  refine ⟨?_, habs, readChunks_size content, sha256hex_length content,
    sha256hex_chars content, ?_⟩
  · unfold compute_digest
    rw [h]
    show some (sha256hex (absorbChunks (readChunks content))) = some (sha256hex content)
    rw [habs]
  · intro fs2 path2 h2
    unfold compute_digest
    rw [h, h2]

/-- Witness for C5 at the concrete tree `wfs`: the manifest of `app:v1`
has empty byte content and digests to the SHA-256 of the empty string. -/
theorem c5_compute_digest_witness :
    wfs.fileBytes ["r", "app", "v1", "manifest.json"] = some [] ∧
    compute_digest wfs ["r", "app", "v1", "manifest.json"] = some (sha256hex []) ∧
    (sha256hex []).length = 64 := by
  have h : wfs.fileBytes ["r", "app", "v1", "manifest.json"] = some [] := by decide
  have hc := c5_compute_digest wfs ["r", "app", "v1", "manifest.json"] [] h
  exact ⟨h, hc.1, hc.2.2.2.1⟩

/-- C7: with `only_constants` set the generator yields exactly the
global `CONSTANTS` fragment (or nothing when `with_constants` is also
disabled) and is independent of the filesystem, so discovery is never
consulted; with `with_constants` disabled the output is exactly the
default output minus the leading `CONSTANTS` fragment, and the
`CONSTANTS` fragment never occurs in it. -/
theorem c7_flag_combinations (fs fs2 : FS) (root : List String) (sr np : String) :
    create_config fs root sr np true true = ([Fragment.constants], none) ∧
    create_config fs root sr np false true = ([], none) ∧
    (∀ wc, create_config fs root sr np wc true = create_config fs2 root sr np wc true) ∧
    create_config fs root sr np true false =
      (Fragment.constants :: (create_config fs root sr np false false).1,
       (create_config fs root sr np false false).2) ∧
    (∀ oc, Fragment.constants ∉ (create_config fs root sr np false oc).1) := by
  refine ⟨rfl, rfl, ?_, create_config_constants_relation fs root sr np,
    fun oc => constants_not_mem_omit fs root sr np oc⟩
  intro wc
  cases wc <;> rfl

/-- C2, as stated, is false: a manifest that parses to a truthy
non-object JSON value (here the array `[1]`) is not skipped — the
`data.get('schemaVersion')` call raises `AttributeError` and discovery
aborts, yielding nothing. -/
theorem c2_counterexample :
    (find_images badFS []).1 = [] ∧
    (find_images badFS []).2 = some PyError.attributeError := by decide

/-- C2 (amended): provided every manifest that parses to a truthy value
parses to a JSON object — a truthy non-object aborts discovery with an
`AttributeError` instead of being skipped — discovery terminates without
error and yields exactly the triples satisfying the eligibility
predicate: listed directories at both levels, an existing
`manifest.json` that parses to a truthy JSON object with `schemaVersion`
the integer 2 and an allow-listed `mediaType`; everything else is
skipped. -/
theorem c2_discovery_exact (fs : FS) (root : List String)
    (hobj : ∀ p j, fs.parse p = some j → pyTruthy j = true → ∃ kvs, j = PyJson.obj kvs) :
    (find_images fs root).2 = none ∧
    ∀ name tag mt, ((name, tag, mt) ∈ (find_images fs root).1 ↔
      validTriple fs root name tag mt) :=
  find_images_ok fs root hobj

/-- Witness for C2 at the concrete tree `wfs`. -/
theorem c2_discovery_exact_witness :
    (find_images wfs ["r"]).2 = none ∧
    (("app", "v1", dockerMT) ∈ (find_images wfs ["r"]).1 ↔
      validTriple wfs ["r"] "app" "v1" dockerMT) := by
  have hobj : ∀ p j, wfs.parse p = some j → pyTruthy j = true →
      ∃ kvs, j = PyJson.obj kvs := by
    intro p j hp _
    have hp2 : (if p ∈ wfsManifests then some dockerManifest else none) = some j := hp
    by_cases hm : p ∈ wfsManifests
    · rw [if_pos hm] at hp2
      injection hp2 with hj
      subst hj
      exact ⟨_, rfl⟩
    · rw [if_neg hm] at hp2
      cases hp2
  have h := c2_discovery_exact wfs ["r"] hobj
  exact ⟨h.1, h.2 "app" "v1" dockerMT⟩

/-- C1: per image of the inventory, on a successful run: all N
tag-addressed manifest routes are emitted; for every digest value the
output holds exactly one digest-addressed manifest route of that image
if some tag of the image produces that digest and none otherwise (so an
identical digest appearing in two different images yields one
digest-addressed route in each — the count is per image name); the
digest-addressed route carries the first tag (in sorted order) whose
manifest produces the digest; and every later tag sharing the digest
yields the explanatory comment fragment instead. -/
theorem c1_digest_dedup (fs : FS) (root : List String) (sr np : String) (wc : Bool)
    (hsucc : (create_config fs root sr np wc false).2 = none)
    (img : String × List (String × String)) (himg : img ∈ imagesOf fs root) :
    List.countP (isTagRouteOf img.1) (create_config fs root sr np wc false).1
      = img.2.length ∧
    (∀ d : String,
      List.countP (isDigestRouteOf img.1 d) (create_config fs root sr np wc false).1 =
        if ∃ p ∈ sortByKey img.2,
            compute_digest fs (root ++ [img.1, p.1, MANIFEST_JSON]) = some d
          then 1 else 0) ∧
    (∀ (d : String) (p : String × String),
      (sortByKey img.2).find? (fun q =>
        compute_digest fs (root ++ [img.1, q.1, MANIFEST_JSON]) == some d) = some p →
      Fragment.manifestByDigest (pyLstripSlash np) img.1 p.1 p.2 d sr ∈
        (create_config fs root sr np wc false).1) ∧
    (∀ p ∈ sortByKey img.2, ∀ d : String,
      compute_digest fs (root ++ [img.1, p.1, MANIFEST_JSON]) = some d →
      (sortByKey img.2).find? (fun q =>
        compute_digest fs (root ++ [img.1, q.1, MANIFEST_JSON]) == some d) ≠ some p →
      Fragment.digestComment img.1 p.1 ∈ (create_config fs root sr np wc false).1) := by
  obtain ⟨hfi, hemit⟩ := create_config_success_parts fs root sr np wc hsucc
  have hallimg := emitImages_success_all fs root sr np (imagesOf fs root) hemit
  have himgsucc := hallimg img himg
  have himgsucc2 : (emitTags fs root sr np img.1 (sortByKey img.2) []).2 = none := by
    rw [← emitImage_snd]; exact himgsucc
  have hall := emitTags_isSome_of_err_none fs root sr np img.1 (sortByKey img.2) [] himgsucc2
  have hpw := imagesOf_pairwise fs root
  have hheadzero : ∀ (p : Fragment → Bool), p Fragment.constants = false →
      List.countP p (if wc then [Fragment.constants] else []) = 0 := by
    intro p hp
    cases wc
    · rfl
    · simp [hp]
  refine ⟨?_, ?_, ?_, ?_⟩
  · have hpT : ∀ f, isTagRouteOf img.1 f = true → f.imageName = some img.1 := by
      intro f hf
      cases f with
      | manifestByTag np2 n t m d s2 =>
        simp only [isTagRouteOf, beq_iff_eq] at hf
        simp [Fragment.imageName, hf]
      | constants => simp [isTagRouteOf] at hf
      | tagList _ _ _ => simp [isTagRouteOf] at hf
      | manifestByDigest _ _ _ _ _ _ => simp [isTagRouteOf] at hf
      | digestComment _ _ => simp [isTagRouteOf] at hf
      | blobRoute _ _ _ _ => simp [isTagRouteOf] at hf
    rw [create_config_structure fs root sr np wc hfi, List.countP_append,
      hheadzero _ rfl,
      emitImages_countP_pick fs root sr np _ (imagesOf fs root) hpw hallimg img himg hpT,
      emitImage_tagRoute_count2 fs root sr np img himgsucc]
    simp
  · intro d
    have hpD : ∀ f, isDigestRouteOf img.1 d f = true → f.imageName = some img.1 := by
      intro f hf
      cases f with
      | manifestByDigest np2 n t m d2 s2 =>
        simp only [isDigestRouteOf, Bool.and_eq_true, beq_iff_eq] at hf
        simp [Fragment.imageName, hf.1]
      | constants => simp [isDigestRouteOf] at hf
      | tagList _ _ _ => simp [isDigestRouteOf] at hf
      | manifestByTag _ _ _ _ _ _ => simp [isDigestRouteOf] at hf
      | digestComment _ _ => simp [isDigestRouteOf] at hf
      | blobRoute _ _ _ _ => simp [isDigestRouteOf] at hf
    rw [create_config_structure fs root sr np wc hfi, List.countP_append,
      hheadzero _ rfl,
      emitImages_countP_pick fs root sr np _ (imagesOf fs root) hpw hallimg img himg hpD,
      emitImage_digest_count fs root sr np img himgsucc d]
    simp
  · intro d p hfind
    have hmem1 := emitTags_first_digest fs root sr np img.1 (sortByKey img.2) [] hall d p
      (by simp) hfind
    have hmem2 : Fragment.manifestByDigest (pyLstripSlash np) img.1 p.1 p.2 d sr ∈
        (emitImage fs root sr np img).1 := by
      rw [emitImage_success_eq fs root sr np img himgsucc2]
      exact List.mem_cons_of_mem _ (List.mem_append.mpr (Or.inl hmem1))
    exact create_config_mem_lift fs root sr np wc hsucc img himg _ hmem2
  · intro p hp d hpd hfind
    have hmem1 := emitTags_comment_mem fs root sr np img.1 (sortByKey img.2) [] hall p hp d
      hpd (Or.inr hfind)
    have hmem2 : Fragment.digestComment img.1 p.1 ∈ (emitImage fs root sr np img).1 := by
      rw [emitImage_success_eq fs root sr np img himgsucc2]
      exact List.mem_cons_of_mem _ (List.mem_append.mpr (Or.inl hmem1))
    exact create_config_mem_lift fs root sr np wc hsucc img himg _ hmem2

/-- Witness for C1 at the concrete tree `wfs`: `app:v1` and `app:v2`
have byte-identical manifests, yet exactly one digest-addressed route
for `app` with that digest is emitted. -/
theorem c1_digest_dedup_witness :
    (create_config wfs ["r"] "/srv" "" true false).2 = none ∧
    ("app", [("v2", dockerMT), ("v1", dockerMT)]) ∈ imagesOf wfs ["r"] ∧
    List.countP (isDigestRouteOf "app" (sha256hex []))
      (create_config wfs ["r"] "/srv" "" true false).1 = 1 := by
  have h1 : (create_config wfs ["r"] "/srv" "" true false).2 = none := by decide
  have h2 : ("app", [("v2", dockerMT), ("v1", dockerMT)]) ∈ imagesOf wfs ["r"] := by decide
  refine ⟨h1, h2, ?_⟩
  have h3 := (c1_digest_dedup wfs ["r"] "/srv" "" true h1
    ("app", [("v2", dockerMT), ("v1", dockerMT)]) h2).2.1 (sha256hex [])
  rw [h3, if_pos ⟨("v1", dockerMT), by decide, by decide⟩]

/-- C4: per image of the inventory, on a successful run, exactly one
blob route fragment is emitted; it occurs after every other fragment of
that image (nothing belonging to the image follows it); its probe list
is the image's tags in sorted order; and its rendered text is the
pattern-matching location on `sha256:` followed by a 64-character
lowercase-hex capture, with a `try_files` probing `{tag}/$1` for each
listed tag followed by the `=404` fallback. -/
theorem c4_blob_route (fs : FS) (root : List String) (sr np : String) (wc : Bool)
    (hsucc : (create_config fs root sr np wc false).2 = none)
    (img : String × List (String × String)) (himg : img ∈ imagesOf fs root) :
    List.countP (isBlobRouteOf img.1) (create_config fs root sr np wc false).1 = 1 ∧
    (∃ pre post, (create_config fs root sr np wc false).1 =
        pre ++ Fragment.blobRoute (pyLstripSlash np) sr img.1
          (sortStr (img.2.map Prod.fst)) :: post ∧
      ∀ f ∈ post, f.imageName ≠ some img.1) ∧
    List.Sorted (fun a b => strLe a b = true) (sortStr (img.2.map Prod.fst)) ∧
    (∀ q s2 n2 tags, Fragment.render (Fragment.blobRoute q s2 n2 tags) =
      "\nlocation ~ \"/v2/" ++ q ++ n2 ++ "/blobs/sha256:([a-f0-9]\x7b64\x7d)\" \x7b\n" ++
      "    alias " ++ s2 ++ "/" ++ n2 ++ "/;\n" ++
      "    try_files " ++ strJoinWith " " (tags.map (fun t => t ++ "/$1")) ++
      " =404;\n\x7d\n") := by
  obtain ⟨hfi, hemit⟩ := create_config_success_parts fs root sr np wc hsucc
  have hallimg := emitImages_success_all fs root sr np (imagesOf fs root) hemit
  have himgsucc := hallimg img himg
  have himgsucc2 : (emitTags fs root sr np img.1 (sortByKey img.2) []).2 = none := by
    rw [← emitImage_snd]; exact himgsucc
  have hpw := imagesOf_pairwise fs root
  refine ⟨?_, ?_, sortStr_sorted _, fun q s2 n2 tags => rfl⟩
  · have hpB : ∀ f, isBlobRouteOf img.1 f = true → f.imageName = some img.1 := by
      intro f hf
      cases f with
      | blobRoute q s2 n2 tags =>
        simp only [isBlobRouteOf, beq_iff_eq] at hf
        simp [Fragment.imageName, hf]
      | constants => simp [isBlobRouteOf] at hf
      | tagList _ _ _ => simp [isBlobRouteOf] at hf
      | manifestByTag _ _ _ _ _ _ => simp [isBlobRouteOf] at hf
      | manifestByDigest _ _ _ _ _ _ => simp [isBlobRouteOf] at hf
      | digestComment _ _ => simp [isBlobRouteOf] at hf
    have hheadzero : List.countP (isBlobRouteOf img.1)
        (if wc then [Fragment.constants] else []) = 0 := by
      cases wc
      · rfl
      · simp [isBlobRouteOf]
    rw [create_config_structure fs root sr np wc hfi, List.countP_append, hheadzero,
      emitImages_countP_pick fs root sr np _ (imagesOf fs root) hpw hallimg img himg hpB,
      emitImage_blob_count fs root sr np img himgsucc]
  · obtain ⟨pre, post, hdecomp, hpost⟩ :=
      emitImages_decomp fs root sr np (imagesOf fs root) hpw hallimg img himg
    rw [emitImage_success_eq fs root sr np img himgsucc2] at hdecomp
    refine ⟨(if wc then [Fragment.constants] else []) ++
      (pre ++ (Fragment.tagList (pyLstripSlash np) img.1 (sortStr (img.2.map Prod.fst)) ::
        (emitTags fs root sr np img.1 (sortByKey img.2) []).1)), post, ?_, hpost⟩
    rw [create_config_structure fs root sr np wc hfi]
    show (if wc then [Fragment.constants] else []) ++
      (emitImages fs root sr np (imagesOf fs root)).1 = _
    rw [hdecomp]
    simp [List.append_assoc]

/-- Witness for C4 at the concrete tree `wfs`. -/
theorem c4_blob_route_witness :
    (create_config wfs ["r"] "/srv" "" true false).2 = none ∧
    ("app", [("v2", dockerMT), ("v1", dockerMT)]) ∈ imagesOf wfs ["r"] ∧
    List.countP (isBlobRouteOf "app")
      (create_config wfs ["r"] "/srv" "" true false).1 = 1 := by
  have h1 : (create_config wfs ["r"] "/srv" "" true false).2 = none := by decide
  have h2 : ("app", [("v2", dockerMT), ("v1", dockerMT)]) ∈ imagesOf wfs ["r"] := by decide
  exact ⟨h1, h2, (c4_blob_route wfs ["r"] "/srv" "" true h1
    ("app", [("v2", dockerMT), ("v1", dockerMT)]) h2).1⟩

/-- C9: per image of the inventory, on a successful run, every sorted
tag yields a manifest-by-tag route carrying the tag's recorded media
type and the digest of that tag's manifest file; every emitted
manifest-by-digest route has its companion manifest-by-tag route with
identical interpolation arguments (same aliased tag directory, media
type, digest and server root); both render to the same serving body
`manifestBody` — media-typed default type, `Docker-Content-Digest`
header, `try_files manifest.json =404` and the `@404_tag` fallback —
differing only in the location path; and every manifest route in the
output carries the digest actually computed from the manifest file it
aliases. -/
theorem c9_manifest_route_pair (fs : FS) (root : List String) (sr np : String) (wc : Bool)
    (hsucc : (create_config fs root sr np wc false).2 = none)
    (img : String × List (String × String)) (himg : img ∈ imagesOf fs root) :
    (∀ p ∈ sortByKey img.2, ∃ d,
      compute_digest fs (root ++ [img.1, p.1, MANIFEST_JSON]) = some d ∧
      Fragment.manifestByTag (pyLstripSlash np) img.1 p.1 p.2 d sr ∈
        (create_config fs root sr np wc false).1) ∧
    (∀ np2 n t m d s2,
      Fragment.manifestByDigest np2 n t m d s2 ∈ (create_config fs root sr np wc false).1 →
      Fragment.manifestByTag np2 n t m d s2 ∈ (create_config fs root sr np wc false).1) ∧
    (∀ np2 n t m d s2,
      Fragment.render (Fragment.manifestByTag np2 n t m d s2) =
        "\nlocation = \"/v2/" ++ np2 ++ n ++ "/manifests/" ++ t ++ "\" \x7b\n" ++
          manifestBody s2 n t m d ∧
      Fragment.render (Fragment.manifestByDigest np2 n t m d s2) =
        "\nlocation = \"/v2/" ++ np2 ++ n ++ "/manifests/sha256:" ++ d ++ "\" \x7b\n" ++
          manifestBody s2 n t m d) ∧
    (∀ np2 n t m d s2,
      (Fragment.manifestByTag np2 n t m d s2 ∈ (create_config fs root sr np wc false).1 ∨
       Fragment.manifestByDigest np2 n t m d s2 ∈ (create_config fs root sr np wc false).1) →
      compute_digest fs (root ++ [n, t, MANIFEST_JSON]) = some d) := by
  obtain ⟨hfi, hemit⟩ := create_config_success_parts fs root sr np wc hsucc
  have hallimg := emitImages_success_all fs root sr np (imagesOf fs root) hemit
  have himgsucc := hallimg img himg
  have himgsucc2 : (emitTags fs root sr np img.1 (sortByKey img.2) []).2 = none := by
    rw [← emitImage_snd]; exact himgsucc
  have hall := emitTags_isSome_of_err_none fs root sr np img.1 (sortByKey img.2) [] himgsucc2
  refine ⟨?_, ?_, fun np2 n t m d s2 => ⟨rfl, rfl⟩, ?_⟩
  · intro p hp
    rcases emitTags_tagRoute_mem fs root sr np img.1 (sortByKey img.2) [] hall p hp with
      ⟨d, hd, hmem1⟩
    refine ⟨d, hd, ?_⟩
    have hmem2 : Fragment.manifestByTag (pyLstripSlash np) img.1 p.1 p.2 d sr ∈
        (emitImage fs root sr np img).1 := by
      rw [emitImage_success_eq fs root sr np img himgsucc2]
      exact List.mem_cons_of_mem _ (List.mem_append.mpr (Or.inl hmem1))
    exact create_config_mem_lift fs root sr np wc hsucc img himg _ hmem2
  · intro np2 n t m d s2 hmem
    exact create_config_digest_companion fs root sr np wc false np2 n t m d s2 hmem
  · intro np2 n t m d s2 hor
    rcases hor with hmem | hmem
    · exact create_config_manifest_digest fs root sr np wc false _ hmem np2 n t m d s2
        (Or.inl rfl)
    · exact create_config_manifest_digest fs root sr np wc false _ hmem np2 n t m d s2
        (Or.inr rfl)

/-- Witness for C9 at the concrete tree `wfs`. -/
theorem c9_manifest_route_pair_witness :
    (create_config wfs ["r"] "/srv" "" true false).2 = none ∧
    ("app", [("v2", dockerMT), ("v1", dockerMT)]) ∈ imagesOf wfs ["r"] ∧
    ∃ d, compute_digest wfs (["r"] ++ ["app", "v1", MANIFEST_JSON]) = some d ∧
      Fragment.manifestByTag (pyLstripSlash "") "app" "v1" dockerMT d "/srv" ∈
        (create_config wfs ["r"] "/srv" "" true false).1 := by
  have h1 : (create_config wfs ["r"] "/srv" "" true false).2 = none := by decide
  have h2 : ("app", [("v2", dockerMT), ("v1", dockerMT)]) ∈ imagesOf wfs ["r"] := by decide
  have h3 : ("v1", dockerMT) ∈ sortByKey [("v2", dockerMT), ("v1", dockerMT)] := by decide
  exact ⟨h1, h2, (c9_manifest_route_pair wfs ["r"] "/srv" "" true h1
    ("app", [("v2", dockerMT), ("v1", dockerMT)]) h2).1 ("v1", dockerMT) h3⟩

/-- C3: the generator is deterministic — two filesystems agree on all
five oracles produce byte-identical rendered output for identical
arguments — and every externally visible iteration order is sorted: the
tag-list fragments appear in lexicographically sorted image-name order
(exactly the sorted inventory), and within each image the
manifest-by-tag routes appear in lexicographically sorted tag order. -/
theorem c3_deterministic_sorted (fs fs2 : FS) (root : List String) (sr np : String)
    (wc oc : Bool)
    (hld : fs.listdir = fs2.listdir) (hid : fs.isDir = fs2.isDir)
    (hif : fs.isFile = fs2.isFile) (hpp : fs.parse = fs2.parse)
    (hfb : fs.fileBytes = fs2.fileBytes)
    (hsucc : (create_config fs root sr np wc false).2 = none) :
    create_config_text fs root sr np wc oc = create_config_text fs2 root sr np wc oc ∧
    tagListNames (create_config fs root sr np wc false).1 =
      (imagesOf fs root).map Prod.fst ∧
    List.Sorted (fun a b => strLe a b = true)
      (tagListNames (create_config fs root sr np wc false).1) ∧
    ∀ img ∈ imagesOf fs root,
      tagRouteTags img.1 (create_config fs root sr np wc false).1 =
        (sortByKey img.2).map Prod.fst ∧
      List.Sorted (fun a b => strLe a b = true)
        (tagRouteTags img.1 (create_config fs root sr np wc false).1) := by
  obtain ⟨hfi, hemit⟩ := create_config_success_parts fs root sr np wc hsucc
  have hallimg := emitImages_success_all fs root sr np (imagesOf fs root) hemit
  have hpw := imagesOf_pairwise fs root
  have hfs : fs = fs2 := by
    obtain ⟨l1, i1, f1, p1, b1⟩ := fs
    obtain ⟨l2, i2, f2, p2, b2⟩ := fs2
    have e1 : l1 = l2 := hld
    have e2 : i1 = i2 := hid
    have e3 : f1 = f2 := hif
    have e4 : p1 = p2 := hpp
    have e5 : b1 = b2 := hfb
    subst e1; subst e2; subst e3; subst e4; subst e5
    rfl
  have hnames : tagListNames (create_config fs root sr np wc false).1 =
      (imagesOf fs root).map Prod.fst := by
    have hhead : tagListNames (if wc then [Fragment.constants] else []) = [] := by
      cases wc <;> rfl
    have happ : tagListNames ((if wc then [Fragment.constants] else []) ++
        (emitImages fs root sr np (imagesOf fs root)).1) =
        tagListNames (if wc then [Fragment.constants] else []) ++
        tagListNames (emitImages fs root sr np (imagesOf fs root)).1 :=
      List.filterMap_append _ _ _
    rw [create_config_structure fs root sr np wc hfi]
    show tagListNames ((if wc then [Fragment.constants] else []) ++
      (emitImages fs root sr np (imagesOf fs root)).1) = _
    rw [happ, hhead,
      emitImages_tagListNames fs root sr np (imagesOf fs root) hallimg]
    rfl
  have hsortimgs : List.Sorted
      (fun a b : String × List (String × String) => strLe a.1 b.1 = true)
      (imagesOf fs root) := sortByKey_sorted _
  refine ⟨by rw [hfs], hnames, ?_, ?_⟩
  · rw [hnames]
    exact List.pairwise_map.mpr hsortimgs
  · intro img himg
    have himgsucc := hallimg img himg
    have htrt : tagRouteTags img.1 (create_config fs root sr np wc false).1 =
        (sortByKey img.2).map Prod.fst := by
      have hhead : tagRouteTags img.1 (if wc then [Fragment.constants] else []) = [] := by
        cases wc <;> rfl
      have happ : tagRouteTags img.1 ((if wc then [Fragment.constants] else []) ++
          (emitImages fs root sr np (imagesOf fs root)).1) =
          tagRouteTags img.1 (if wc then [Fragment.constants] else []) ++
          tagRouteTags img.1 (emitImages fs root sr np (imagesOf fs root)).1 :=
        List.filterMap_append _ _ _
      rw [create_config_structure fs root sr np wc hfi]
      show tagRouteTags img.1 ((if wc then [Fragment.constants] else []) ++
        (emitImages fs root sr np (imagesOf fs root)).1) = _
      rw [happ, hhead,
        emitImages_tagRouteTags_pick fs root sr np (imagesOf fs root) hpw hallimg img himg,
        emitImage_tagRouteTags fs root sr np img himgsucc]
      rfl
    refine ⟨htrt, ?_⟩
    rw [htrt]
    exact List.pairwise_map.mpr (sortByKey_sorted img.2)

/-- Witness for C3 at the concrete tree `wfs`: the tag-list fragments
appear for `app` then `lib`, the sorted image names. -/
theorem c3_deterministic_sorted_witness :
    (create_config wfs ["r"] "/srv" "" true false).2 = none ∧
    tagListNames (create_config wfs ["r"] "/srv" "" true false).1 =
      (imagesOf wfs ["r"]).map Prod.fst := by
  have h1 : (create_config wfs ["r"] "/srv" "" true false).2 = none := by decide
  exact ⟨h1, (c3_deterministic_sorted wfs wfs ["r"] "/srv" "" true false
    rfl rfl rfl rfl rfl h1).2.1⟩

/-- C6: if the manifest file of a discovered tag vanishes between
discovery and digesting, the run raises the I/O error (the generator's
second component is `IOError`) and no manifest route fragment — by tag
or by digest — naming that image and tag is ever emitted: the digest is
computed before either fragment is yielded. -/
theorem c6_vanished_manifest (fs : FS) (root : List String) (sr np : String) (wc : Bool)
    (hfi : (find_images fs root).2 = none)
    (name tag mt : String) (tags : List (String × String))
    (himg : (name, tags) ∈ imagesOf fs root) (htag : (tag, mt) ∈ tags)
    (hgone : fs.fileBytes (root ++ [name, tag, MANIFEST_JSON]) = none) :
    (create_config fs root sr np wc false).2 = some PyError.ioError ∧
    (∀ np2 m d s2, Fragment.manifestByTag np2 name tag m d s2 ∉
        (create_config fs root sr np wc false).1) ∧
    (∀ np2 m d s2, Fragment.manifestByDigest np2 name tag m d s2 ∉
        (create_config fs root sr np wc false).1) := by
  have hdg : compute_digest fs (root ++ [name, tag, MANIFEST_JSON]) = none := by
    unfold compute_digest
    rw [hgone]
  refine ⟨create_config_ioError fs root sr np wc hfi name tag mt tags himg htag hgone,
    ?_, ?_⟩
  · intro np2 m d s2 hmem
    have := create_config_manifest_digest fs root sr np wc false _ hmem np2 name tag m d s2
      (Or.inl rfl)
    rw [hdg] at this
    cases this
  · intro np2 m d s2 hmem
    have := create_config_manifest_digest fs root sr np wc false _ hmem np2 name tag m d s2
      (Or.inr rfl)
    rw [hdg] at this
    cases this

/-- Witness for C6 at the concrete tree `vfs`, where the manifest of
`app:v2` has vanished after discovery. -/
theorem c6_vanished_manifest_witness :
    (find_images vfs ["r"]).2 = none ∧
    ("app", [("v2", dockerMT), ("v1", dockerMT)]) ∈ imagesOf vfs ["r"] ∧
    ("v2", dockerMT) ∈ [("v2", dockerMT), ("v1", dockerMT)] ∧
    vfs.fileBytes (["r"] ++ ["app", "v2", MANIFEST_JSON]) = none ∧
    (create_config vfs ["r"] "/srv" "" true false).2 = some PyError.ioError := by
  have h1 : (find_images vfs ["r"]).2 = none := by decide
  have h2 : ("app", [("v2", dockerMT), ("v1", dockerMT)]) ∈ imagesOf vfs ["r"] := by decide
  have h3 : ("v2", dockerMT) ∈ [("v2", dockerMT), ("v1", dockerMT)] := by decide
  have h4 : vfs.fileBytes (["r"] ++ ["app", "v2", MANIFEST_JSON]) = none := by decide
  exact ⟨h1, h2, h3, h4,
    (c6_vanished_manifest vfs ["r"] "/srv" "" true h1 "app" "v2" dockerMT
      [("v2", dockerMT), ("v1", dockerMT)] h2 h3 h4).1⟩

/-- C8: for a name-prefix argument whose slash-stripped core is
non-empty, the CLI normalization and the emitter's `lstrip` compose so
that every route path of an image-scoped fragment is rooted at
`/v2/{core}/{name}...` with exactly one separating slash. -/
theorem c8_prefix_normalization (fs : FS) (root : List String) (sr : String)
    (arg : String) (hcore : pyStripSlash arg ≠ "") (wc oc : Bool) :
    ∀ f ∈ (create_config fs root sr (cliPrefixNorm (some arg)) wc oc).1,
      ∀ p nm, f.routePath = some p → f.imageName = some nm →
      ∃ rest, p = "/v2/" ++ pyStripSlash arg ++ "/" ++ nm ++ rest := by
  intro f hf p nm hrp hin
  have hnp := create_config_npfxOf fs root sr (cliPrefixNorm (some arg)) wc oc f hf
  rcases hnp with hnone | hsome
  · cases f with
    | constants => simp [Fragment.routePath] at hrp
    | digestComment _ _ => simp [Fragment.routePath] at hrp
    | tagList _ _ _ => simp [Fragment.npfxOf] at hnone
    | manifestByTag _ _ _ _ _ _ => simp [Fragment.npfxOf] at hnone
    | manifestByDigest _ _ _ _ _ _ => simp [Fragment.npfxOf] at hnone
    | blobRoute _ _ _ _ => simp [Fragment.npfxOf] at hnone
  · have heff : pyLstripSlash (cliPrefixNorm (some arg)) = pyStripSlash arg ++ "/" := by
      show pyLstripSlash (pyStripSlash arg ++ "/") = pyStripSlash arg ++ "/"
      exact effective_prefix_eq arg hcore
    rw [heff] at hsome
    rcases routePath_shape f _ nm hsome hin with ⟨rest, hshape⟩
    rw [hshape] at hrp
    injection hrp with hp2
    refine ⟨rest, ?_⟩
    rw [← hp2]
    simp [String.append_assoc]

/-- Witness for C8: prefix `foo` applied to image `app` of the concrete
tree `wfs` roots its tag-list route at `/v2/foo/app/...`. -/
theorem c8_prefix_normalization_witness :
    pyStripSlash "foo" ≠ "" ∧
    Fragment.tagList "foo/" "app" ["v1", "v2"] ∈
      (create_config wfs ["r"] "/srv" (cliPrefixNorm (some "foo")) true false).1 ∧
    ∃ rest, "/v2/" ++ "foo/" ++ "app" ++ "/tags/list" =
      "/v2/" ++ pyStripSlash "foo" ++ "/" ++ "app" ++ rest := by
  have h0 : pyStripSlash "foo" ≠ "" := by decide
  have hmem : Fragment.tagList "foo/" "app" ["v1", "v2"] ∈
      (create_config wfs ["r"] "/srv" (cliPrefixNorm (some "foo")) true false).1 := by
    decide
  refine ⟨h0, hmem, ?_⟩
  exact c8_prefix_normalization wfs ["r"] "/srv" "foo" h0 true false
    (Fragment.tagList "foo/" "app" ["v1", "v2"]) hmem
    ("/v2/" ++ "foo/" ++ "app" ++ "/tags/list") "app" (by simp [Fragment.routePath]) rfl

/-- C10: with no name prefix supplied the CLI normalization yields the
string `/`, the emitter's `lstrip` reduces it to the empty string, the
output is byte-for-byte the output of an emitter called with the empty
prefix, and every image-scoped route of image `nm` is rooted at exactly
`/v2/{nm}...` with a single slash and no stray one. -/
theorem c10_empty_npfx (fs : FS) (root : List String) (sr : String) (wc oc : Bool) :
    cliPrefixNorm none = "/" ∧
    pyLstripSlash "/" = "" ∧
    create_config fs root sr "/" wc oc = create_config fs root sr "" wc oc ∧
    ∀ f ∈ (create_config fs root sr (cliPrefixNorm none) wc oc).1,
      ∀ p nm, f.routePath = some p → f.imageName = some nm →
      ∃ rest, p = "/v2/" ++ nm ++ rest := by
  refine ⟨by decide, by decide,
    create_config_np_congr fs root sr (by decide) wc oc, ?_⟩
  intro f hf p nm hrp hin
  have hnp := create_config_npfxOf fs root sr (cliPrefixNorm none) wc oc f hf
  rcases hnp with hnone | hsome
  · cases f with
    | constants => simp [Fragment.routePath] at hrp
    | digestComment _ _ => simp [Fragment.routePath] at hrp
    | tagList _ _ _ => simp [Fragment.npfxOf] at hnone
    | manifestByTag _ _ _ _ _ _ => simp [Fragment.npfxOf] at hnone
    | manifestByDigest _ _ _ _ _ _ => simp [Fragment.npfxOf] at hnone
    | blobRoute _ _ _ _ => simp [Fragment.npfxOf] at hnone
  · have heff : pyLstripSlash (cliPrefixNorm none) = "" := by decide
    rw [heff] at hsome
    rcases routePath_shape f _ nm hsome hin with ⟨rest, hshape⟩
    rw [hshape] at hrp
    injection hrp with hp2
    refine ⟨rest, ?_⟩
    rw [← hp2]
    simp [String.append_assoc, String.empty_append]

/-- Witness for C10: with no prefix, the tag-list route of image `app`
of the concrete tree `wfs` is rooted at `/v2/app/...`. -/
theorem c10_empty_npfx_witness :
    cliPrefixNorm none = "/" ∧
    Fragment.tagList "" "app" ["v1", "v2"] ∈
      (create_config wfs ["r"] "/srv" (cliPrefixNorm none) true false).1 ∧
    ∃ rest, "/v2/" ++ "" ++ "app" ++ "/tags/list" = "/v2/" ++ "app" ++ rest := by
  have hmem : Fragment.tagList "" "app" ["v1", "v2"] ∈
      (create_config wfs ["r"] "/srv" (cliPrefixNorm none) true false).1 := by
    decide
  refine ⟨by decide, hmem, ?_⟩
  exact (c10_empty_npfx wfs ["r"] "/srv" true false).2.2.2
    (Fragment.tagList "" "app" ["v1", "v2"]) hmem
    ("/v2/" ++ "" ++ "app" ++ "/tags/list") "app" (by simp [Fragment.routePath]) rfl

/-- Witness for C7 at the concrete tree `wfs`: with `only_constants`
set the output is exactly the `CONSTANTS` fragment. -/
theorem c7_flag_combinations_witness :
    create_config wfs ["r"] "/srv" "" true true = ([Fragment.constants], none) ∧
    Fragment.constants ∉ (create_config wfs ["r"] "/srv" "" false true).1 :=
  ⟨(c7_flag_combinations wfs wfs ["r"] "/srv" "").1,
   (c7_flag_combinations wfs wfs ["r"] "/srv" "").2.2.2.2 true⟩
